import Mathlib

/-!
Shallow embedding of the csscade property-merging engine.

The definitions below are translated from the Python sources of the
repository, primarily:

* `csscade/models.py`                  — `CSSProperty`
* `csscade/utils/important_parser.py`  — `ImportantParser`
* `csscade/resolvers/conflict_detector.py` — `ConflictDetector.is_shorthand`
* `csscade/handlers/shorthand.py`      — `ShorthandResolver.expand_shorthand`
* `csscade/property_merger_hybrid.py`  — `PropertyMerger` (the hybrid merge
  engine with `cascade` / `smart` / `expand` shorthand strategies), which is
  the engine the specification documents.

Python dictionaries are modelled as ordered association lists with
insert-or-replace-in-place semantics; Python string operations are modelled
by executable character-list recursion (`strip` ↦ trim of the whitespace
characters, argumentless `split` ↦ split on whitespace runs discarding empty
tokens, `split(sep)` ↦ separator split keeping empty pieces). Python
exceptions are modelled with `Except String`; in the embedded fragment only
`ShorthandResolver._expand_corners` can raise (tuple unpacking of
`value.split('/')`), and `PropertyMerger._expand_all_properties` catches it.
-/

namespace CSScade

/-- `CSSProperty` from `csscade/models.py`: name, value, `!important` flag. -/
structure CSSProperty where
  name : String
  value : String
  important : Bool := false
deriving Repr, DecidableEq

/-- Whitespace test used to model Python `str.strip()` / `str.split()`. -/
def isWs (c : Char) : Bool :=
  c = ' ' ∨ c = '\t' ∨ c = '\n' ∨ c = '\r'

/-- Python `str.strip()` (whitespace variant), on the character list. -/
def stripChars (l : List Char) : List Char :=
  ((l.dropWhile isWs).reverse.dropWhile isWs).reverse

/-- Python `str.strip()` (whitespace variant). -/
def pyStrip (s : String) : String := ⟨stripChars s.data⟩

/-- Helper for `pySplit`: accumulate the current token (reversed) while
scanning the character list. -/
def splitWsAux : List Char → List Char → List String
  | [], acc => if acc = [] then [] else [⟨acc.reverse⟩]
  | c :: cs, acc =>
    if isWs c then
      if acc = [] then splitWsAux cs [] else ⟨acc.reverse⟩ :: splitWsAux cs []
    else splitWsAux cs (c :: acc)

/-- Python argumentless `str.split()`: split on whitespace runs, dropping
empty tokens. -/
def pySplit (s : String) : List String := splitWsAux s.data []

/-- Python `str.split(sep)` for a single-character separator: split on every
occurrence, keeping empty pieces. -/
def splitOnChar (c : Char) : List Char → List (List Char)
  | [] => [[]]
  | x :: xs =>
    match splitOnChar c xs with
    | [] => [[]]
    | t :: ts => if x = c then [] :: t :: ts else (x :: t) :: ts

/-- Python `sub in s` substring containment. -/
def pyContains (s sub : String) : Bool :=
  s.data.tails.any (fun t => sub.data.isPrefixOf t)

/-- Python `s.endswith(p)`. -/
def pyEndsWith (s p : String) : Bool :=
  p.data.isSuffixOf s.data

/-- Python `s.startswith(p)`. -/
def pyStartsWith (s p : String) : Bool :=
  p.data.isPrefixOf s.data

/-- Python `s[:-n]` for `n ≤ len(s)`: drop the last `n` characters. -/
def pyDropRight (s : String) (n : Nat) : String :=
  ⟨s.data.take (s.data.length - n)⟩

/-- Fuelled scanner for `pyReplaceDel`; the fuel is the list length, which
each step consumes at least one unit of, so the `0` case is unreachable. -/
def dropSubAllFuel (sub : List Char) : Nat → List Char → List Char
  | _, [] => []
  | 0, l => l
  | n + 1, x :: xs =>
    if sub.isPrefixOf (x :: xs) ∧ sub ≠ [] then
      dropSubAllFuel sub n (xs.drop (sub.length - 1))
    else
      x :: dropSubAllFuel sub n xs

/-- Python `str.replace(old, "")`: delete every (left-to-right,
non-overlapping) occurrence of `old`. -/
def dropSubAll (sub l : List Char) : List Char :=
  dropSubAllFuel sub l.length l

/-- Python `s.replace(old, "")` on strings. -/
def pyReplaceDel (s old : String) : String := ⟨dropSubAll old.data s.data⟩

/-- Python `str.isdigit()` restricted to ASCII digits. -/
def pyIsDigit (s : String) : Bool :=
  s.data ≠ [] ∧ s.data.all Char.isDigit

/-- `ImportantParser.parse_value_with_important` from
`csscade/utils/important_parser.py`: extract a trailing `!important` (or
`! important`) annotation from a CSS value string. -/
def parseValueWithImportant (value : String) : String × Bool :=
  if value = "" then (value, false)
  else
    let v := pyStrip value
    if pyEndsWith v "!important" then
      (pyStrip (pyDropRight v 10), true)
    else if pyEndsWith v "! important" then
      (pyStrip (pyDropRight v 11), true)
    else
      (v, false)

/-- Keys of `ConflictDetector.shorthand_map` from
`csscade/resolvers/conflict_detector.py`. -/
def shorthandNames : List String :=
  ["margin", "padding",
   "border", "border-width", "border-style", "border-color",
   "border-top", "border-right", "border-bottom", "border-left",
   "background", "font", "list-style", "outline", "flex",
   "grid", "grid-template", "grid-gap", "gap",
   "animation", "transition", "text-decoration",
   "columns", "column-rule", "border-radius", "overflow",
   "place-content", "place-items", "place-self"]

/-- `ConflictDetector.is_shorthand`. -/
def isShorthand (name : String) : Bool :=
  shorthandNames.contains name

/-- The `# Regular margin/padding pattern` tail of
`ShorthandResolver._expand_box_model`: distribute 1–4 whitespace tokens to
the four sides, else return the property unexpanded. -/
def boxModelRegular (parts : List String) (pfx value : String) : List CSSProperty :=
  match parts with
  | [v] =>
    [⟨pfx ++ "-top", v, false⟩, ⟨pfx ++ "-right", v, false⟩,
     ⟨pfx ++ "-bottom", v, false⟩, ⟨pfx ++ "-left", v, false⟩]
  | [vert, horiz] =>
    [⟨pfx ++ "-top", vert, false⟩, ⟨pfx ++ "-right", horiz, false⟩,
     ⟨pfx ++ "-bottom", vert, false⟩, ⟨pfx ++ "-left", horiz, false⟩]
  | [top, horiz, bottom] =>
    [⟨pfx ++ "-top", top, false⟩, ⟨pfx ++ "-right", horiz, false⟩,
     ⟨pfx ++ "-bottom", bottom, false⟩, ⟨pfx ++ "-left", horiz, false⟩]
  | [top, right, bottom, left] =>
    [⟨pfx ++ "-top", top, false⟩, ⟨pfx ++ "-right", right, false⟩,
     ⟨pfx ++ "-bottom", bottom, false⟩, ⟨pfx ++ "-left", left, false⟩]
  | _ => [⟨pfx, value, false⟩]

/-- `ShorthandResolver._expand_box_model`: expand margin / padding /
border-width / border-style / border-color shorthands. The `border-*`
prefixes use the `border-SIDE-PROPERTY` naming pattern; with a token count
outside 1–4 the Python `if`/`elif` chain falls through to the regular
pattern, whose own fall-through returns the property unexpanded. -/
def expandBoxModel (value pfx0 : String) : List CSSProperty :=
  let parts := pySplit (pyStrip value)
  let pfx := if pfx0 = "" then "margin" else pfx0
  if pyStartsWith pfx "border-" then
    let ptype := pyReplaceDel pfx "border-"
    match parts with
    | [v] =>
      [⟨"border-top-" ++ ptype, v, false⟩, ⟨"border-right-" ++ ptype, v, false⟩,
       ⟨"border-bottom-" ++ ptype, v, false⟩, ⟨"border-left-" ++ ptype, v, false⟩]
    | [vert, horiz] =>
      [⟨"border-top-" ++ ptype, vert, false⟩, ⟨"border-right-" ++ ptype, horiz, false⟩,
       ⟨"border-bottom-" ++ ptype, vert, false⟩, ⟨"border-left-" ++ ptype, horiz, false⟩]
    | [top, horiz, bottom] =>
      [⟨"border-top-" ++ ptype, top, false⟩, ⟨"border-right-" ++ ptype, horiz, false⟩,
       ⟨"border-bottom-" ++ ptype, bottom, false⟩, ⟨"border-left-" ++ ptype, horiz, false⟩]
    | [top, right, bottom, left] =>
      [⟨"border-top-" ++ ptype, top, false⟩, ⟨"border-right-" ++ ptype, right, false⟩,
       ⟨"border-bottom-" ++ ptype, bottom, false⟩, ⟨"border-left-" ++ ptype, left, false⟩]
    | _ => boxModelRegular parts pfx value
  else boxModelRegular parts pfx value

/-- The border style keyword set of `ShorthandResolver._expand_border`. -/
def borderStyles : List String :=
  ["none", "hidden", "dotted", "dashed", "solid", "double",
   "groove", "ridge", "inset", "outset"]

/-- The classification loop of `ShorthandResolver._expand_border`: each token
is recorded as style, width or color (later tokens of the same kind win). -/
def borderClassify : List String → Option String × Option String × Option String →
    Option String × Option String × Option String
  | [], st => st
  | part :: rest, (width, style, color) =>
    if borderStyles.contains part then
      borderClassify rest (width, some part, color)
    else if (["px", "em", "rem", "%"].any (fun u => pyContains part u)) ∨
        part ∈ ["thin", "medium", "thick"] then
      borderClassify rest (some part, style, color)
    else
      borderClassify rest (width, style, some part)

/-- `ShorthandResolver._expand_border`: split a `border` shorthand into
per-side width / style / color longhands; unrecognizable values are returned
unexpanded. -/
def expandBorder (value : String) : List CSSProperty :=
  let parts := pySplit (pyStrip value)
  let (width, style, color) := borderClassify parts (none, none, none)
  let props :=
    (match width with
     | some w =>
       [⟨"border-top-width", w, false⟩, ⟨"border-right-width", w, false⟩,
        ⟨"border-bottom-width", w, false⟩, ⟨"border-left-width", w, false⟩]
     | none => []) ++
    (match style with
     | some s =>
       [⟨"border-top-style", s, false⟩, ⟨"border-right-style", s, false⟩,
        ⟨"border-bottom-style", s, false⟩, ⟨"border-left-style", s, false⟩]
     | none => []) ++
    (match color with
     | some c =>
       [⟨"border-top-color", c, false⟩, ⟨"border-right-color", c, false⟩,
        ⟨"border-bottom-color", c, false⟩, ⟨"border-left-color", c, false⟩]
     | none => [])
  if props = [] then [⟨"border", value, false⟩] else props

/-- `ShorthandResolver._expand_corners` (border-radius). A value containing
`/` is unpacked as `horiz, vert = value.split('/')`: with exactly one slash
the value is kept opaque, with more slashes the unpacking raises
`ValueError` — the one partial operation of the expander. -/
def expandCorners (value : String) : Except String (List CSSProperty) :=
  if value.data.contains '/' then
    match splitOnChar '/' value.data with
    | [_, _] => .ok [⟨"border-radius", value, false⟩]
    | _ => .error "too many values to unpack (expected 2)"
  else
    let parts := pySplit (pyStrip value)
    match parts with
    | [v] =>
      .ok [⟨"border-top-left-radius", v, false⟩, ⟨"border-top-right-radius", v, false⟩,
           ⟨"border-bottom-right-radius", v, false⟩, ⟨"border-bottom-left-radius", v, false⟩]
    | [tlbr, trbl] =>
      .ok [⟨"border-top-left-radius", tlbr, false⟩, ⟨"border-top-right-radius", trbl, false⟩,
           ⟨"border-bottom-right-radius", tlbr, false⟩, ⟨"border-bottom-left-radius", trbl, false⟩]
    | [tl, trbl, br] =>
      .ok [⟨"border-top-left-radius", tl, false⟩, ⟨"border-top-right-radius", trbl, false⟩,
           ⟨"border-bottom-right-radius", br, false⟩, ⟨"border-bottom-left-radius", trbl, false⟩]
    | [tl, tr, br, bl] =>
      .ok [⟨"border-top-left-radius", tl, false⟩, ⟨"border-top-right-radius", tr, false⟩,
           ⟨"border-bottom-right-radius", br, false⟩, ⟨"border-bottom-left-radius", bl, false⟩]
    | _ => .ok [⟨"border-radius", value, false⟩]

/-- `ShorthandResolver._expand_background`. -/
def expandBackground (value : String) : List CSSProperty :=
  if value ∈ ["none", "transparent"] then
    [⟨"background-color", value, false⟩, ⟨"background-image", "none", false⟩]
  else if ¬ (["url(", "linear-gradient", "radial-gradient"].any
      (fun k => pyContains value k)) then
    [⟨"background-color", value, false⟩]
  else
    [⟨"background", value, false⟩]

/-- The font weight keyword list of `ShorthandResolver._expand_font`. -/
def fontWeights : List String :=
  ["normal", "bold", "bolder", "lighter", "100", "200", "300",
   "400", "500", "600", "700", "800", "900"]

/-- `ShorthandResolver._expand_font`: pick off a `font-style` and a
`font-weight` token; any remaining tokens make the value too complex, so the
shorthand is kept opaque. -/
def expandFont (value : String) : List CSSProperty :=
  let parts := pySplit (pyStrip value)
  let (props1, parts1) :=
    match (["italic", "oblique", "normal"].find? fun st => parts.contains st) with
    | some st => ([(⟨"font-style", st, false⟩ : CSSProperty)], parts.erase st)
    | none => ([], parts)
  let (props2, parts2) :=
    match (fontWeights.find? fun w => parts1.contains w) with
    | some w => ([(⟨"font-weight", w, false⟩ : CSSProperty)], parts1.erase w)
    | none => ([], parts1)
  if parts2 ≠ [] then [⟨"font", value, false⟩]
  else if props1 ++ props2 = [] then [⟨"font", value, false⟩]
  else props1 ++ props2

/-- `ShorthandResolver._expand_flex`. -/
def expandFlex (value : String) : List CSSProperty :=
  let parts := pySplit (pyStrip value)
  match parts with
  | [v] =>
    if v = "none" then
      [⟨"flex-grow", "0", false⟩, ⟨"flex-shrink", "0", false⟩, ⟨"flex-basis", "auto", false⟩]
    else if v = "auto" then
      [⟨"flex-grow", "1", false⟩, ⟨"flex-shrink", "1", false⟩, ⟨"flex-basis", "auto", false⟩]
    else if pyIsDigit v then
      [⟨"flex-grow", v, false⟩, ⟨"flex-shrink", "1", false⟩, ⟨"flex-basis", "0", false⟩]
    else [⟨"flex", value, false⟩]
  | [grow, shrink] =>
    [⟨"flex-grow", grow, false⟩, ⟨"flex-shrink", shrink, false⟩, ⟨"flex-basis", "0", false⟩]
  | [grow, shrink, basis] =>
    [⟨"flex-grow", grow, false⟩, ⟨"flex-shrink", shrink, false⟩, ⟨"flex-basis", basis, false⟩]
  | _ => [⟨"flex", value, false⟩]

/-- `ShorthandResolver._expand_list_style`. -/
def expandListStyle (value : String) : List CSSProperty :=
  let parts := pySplit (pyStrip value)
  let types :=
    ["disc", "circle", "square", "decimal", "lower-roman", "upper-roman",
     "lower-alpha", "upper-alpha", "none"]
  let positions := ["inside", "outside"]
  let props := parts.flatMap fun part =>
    if types.contains part then [(⟨"list-style-type", part, false⟩ : CSSProperty)]
    else if positions.contains part then [⟨"list-style-position", part, false⟩]
    else if pyContains part "url(" then [⟨"list-style-image", part, false⟩]
    else []
  if props = [] then [⟨"list-style", value, false⟩] else props

/-- `ShorthandResolver._expand_text_decoration`. -/
def expandTextDecoration (value : String) : List CSSProperty :=
  if value ∈ ["none", "underline", "overline", "line-through"] then
    [⟨"text-decoration-line", value, false⟩]
  else [⟨"text-decoration", value, false⟩]

/-- `ShorthandResolver._expand_outline` (border-like classification, units
without `%`, single longhands instead of per-side ones). -/
def expandOutline (value : String) : List CSSProperty :=
  let parts := pySplit (pyStrip value)
  let (width, style, color) := outlineClassify parts (none, none, none)
  let props :=
    (match width with
     | some w => [(⟨"outline-width", w, false⟩ : CSSProperty)]
     | none => []) ++
    (match style with
     | some s => [(⟨"outline-style", s, false⟩ : CSSProperty)]
     | none => []) ++
    (match color with
     | some c => [(⟨"outline-color", c, false⟩ : CSSProperty)]
     | none => [])
  if props = [] then [⟨"outline", value, false⟩] else props
where
  outlineClassify : List String → Option String × Option String × Option String →
      Option String × Option String × Option String
    | [], st => st
    | part :: rest, (width, style, color) =>
      if borderStyles.contains part then
        outlineClassify rest (width, some part, color)
      else if (["px", "em", "rem"].any fun u => pyContains part u) ∨
          part ∈ ["thin", "medium", "thick"] then
        outlineClassify rest (some part, style, color)
      else
        outlineClassify rest (width, style, some part)

/-- `ShorthandResolver._expand_overflow`. -/
def expandOverflow (value : String) : List CSSProperty :=
  match pySplit (pyStrip value) with
  | [v] => [⟨"overflow-x", v, false⟩, ⟨"overflow-y", v, false⟩]
  | [x, y] => [⟨"overflow-x", x, false⟩, ⟨"overflow-y", y, false⟩]
  | _ => [⟨"overflow", value, false⟩]

/-- `ShorthandResolver._expand_gap`. -/
def expandGap (value : String) : List CSSProperty :=
  match pySplit (pyStrip value) with
  | [v] => [⟨"row-gap", v, false⟩, ⟨"column-gap", v, false⟩]
  | [r, c] => [⟨"row-gap", r, false⟩, ⟨"column-gap", c, false⟩]
  | _ => [⟨"gap", value, false⟩]

/-- `ShorthandResolver._expand_place_content`. -/
def expandPlaceContent (value : String) : List CSSProperty :=
  match pySplit (pyStrip value) with
  | [v] => [⟨"align-content", v, false⟩, ⟨"justify-content", v, false⟩]
  | [a, j] => [⟨"align-content", a, false⟩, ⟨"justify-content", j, false⟩]
  | _ => [⟨"place-content", value, false⟩]

/-- `ShorthandResolver._expand_place_items`. -/
def expandPlaceItems (value : String) : List CSSProperty :=
  match pySplit (pyStrip value) with
  | [v] => [⟨"align-items", v, false⟩, ⟨"justify-items", v, false⟩]
  | [a, j] => [⟨"align-items", a, false⟩, ⟨"justify-items", j, false⟩]
  | _ => [⟨"place-items", value, false⟩]

/-- `ShorthandResolver._expand_place_self`. -/
def expandPlaceSelf (value : String) : List CSSProperty :=
  match pySplit (pyStrip value) with
  | [v] => [⟨"align-self", v, false⟩, ⟨"justify-self", v, false⟩]
  | [a, j] => [⟨"align-self", a, false⟩, ⟨"justify-self", j, false⟩]
  | _ => [⟨"place-self", value, false⟩]

/-- `ShorthandResolver.expand_shorthand`: dispatch over the
`expansion_rules` table; names without a rule are returned untouched. Only
the `border-radius` rule can raise. -/
def expandShorthand (name value : String) : Except String (List CSSProperty) :=
  match name with
  | "margin" | "padding" | "border-width" | "border-style" | "border-color" =>
    .ok (expandBoxModel value name)
  | "border" => .ok (expandBorder value)
  | "border-radius" => expandCorners value
  | "background" => .ok (expandBackground value)
  | "font" => .ok (expandFont value)
  | "flex" => .ok (expandFlex value)
  | "animation" => .ok [⟨"animation", value, false⟩]
  | "transition" => .ok [⟨"transition", value, false⟩]
  | "list-style" => .ok (expandListStyle value)
  | "text-decoration" => .ok (expandTextDecoration value)
  | "outline" => .ok (expandOutline value)
  | "overflow" => .ok (expandOverflow value)
  | "gap" => .ok (expandGap value)
  | "place-content" => .ok (expandPlaceContent value)
  | "place-items" => .ok (expandPlaceItems value)
  | "place-self" => .ok (expandPlaceSelf value)
  | _ => .ok [⟨name, value, false⟩]

/-- Python `dict` preserving insertion order, keyed by property name. -/
abbrev Dict := List (String × CSSProperty)

/-- Python `k in d`. -/
def hasKey (d : Dict) (k : String) : Bool :=
  d.any (fun p => p.1 = k)

/-- Python `d.get(k)` / `d[k]`. -/
def dictGet? (d : Dict) (k : String) : Option CSSProperty :=
  (d.find? (fun p => p.1 = k)).map (fun p => p.2)

/-- Python `d[k]` under the guarantee that `k` is present. -/
def dictGet (d : Dict) (k : String) : CSSProperty :=
  (dictGet? d k).getD ⟨"", "", false⟩

/-- Python `d[k] = v`: replace in place when the key exists, else append. -/
def dictInsert (d : Dict) (k : String) (v : CSSProperty) : Dict :=
  if hasKey d k then d.map (fun p => if p.1 = k then (k, v) else p)
  else d ++ [(k, v)]

/-- Python `list(d.values())`. -/
def dictValues (d : Dict) : List CSSProperty := d.map (fun p => p.2)

/-- Python `list(d.keys())`. -/
def dictKeys (d : Dict) : List String := d.map (fun p => p.1)

/-- The loop body of `PropertyMerger._expand_all_properties`: expand one
property into the accumulated `(dict, warnings)` state, propagating the
shorthand's `important` flag onto its longhands; an expansion exception is
caught (`try`/`except` in the source), a warning is recorded, and the
property is kept as-is. -/
def expandStep (state : Dict × List String) (prop : CSSProperty) : Dict × List String :=
  if isShorthand prop.name then
    match expandShorthand prop.name prop.value with
    | .ok longhands =>
      (longhands.foldl (fun acc lh =>
        let lh' := if prop.important then { lh with important := true } else lh
        dictInsert acc lh'.name lh') state.1, state.2)
    | .error e =>
      (dictInsert state.1 prop.name prop,
       state.2 ++ ["Could not expand " ++ prop.name ++ ": " ++ e])
  else
    (dictInsert state.1 prop.name prop, state.2)

/-- `PropertyMerger._expand_all_properties` from
`csscade/property_merger_hybrid.py`: expand every shorthand into a longhand
dict. Returns the dict and the warnings appended by the loop. -/
def expandAllProperties (props : List CSSProperty) : Dict × List String :=
  props.foldl expandStep ([], [])

/-- `PropertyMerger._apply_important_strategy`: build the final property for
an override (re-parsing `!important` out of its value string) and apply the
configured importance strategy. Returns the property together with the info
and warning messages appended by this call. -/
def applyImportantStrategy (original : Option CSSProperty) (override : CSSProperty)
    (strategy : String) : CSSProperty × List String × List String :=
  let cleanValue := (parseValueWithImportant override.value).1
  let hasImportant := (parseValueWithImportant override.value).2
  let result : CSSProperty := ⟨override.name, cleanValue, hasImportant⟩
  if strategy = "match" then
    if (original.map (fun o => o.important)).getD false ∧ ¬hasImportant then
      ({ result with important := true },
       ["Property '" ++ override.name ++ "' marked !important to match original"], [])
    else (result, [], [])
  else if strategy = "force" then
    if ¬result.important then
      ({ result with important := true },
       ["Force mode: Adding !important to '" ++ override.name ++ "'"], [])
    else (result, [], [])
  else if strategy = "strip" then
    if result.important then
      ({ result with important := false },
       ["Strip mode: Removing !important from '" ++ override.name ++ "'"], [])
    else (result, [], [])
  else if strategy = "override" then
    if (original.map (fun o => o.important)).getD false ∧ ¬hasImportant then
      (result, [],
       ["Property '" ++ override.name ++ "' had !important but override doesn't - may not apply"])
    else (result, [], [])
  else (result, [], [])

/-- The info message recorded when `respect` skips an important property. -/
def respectSkipMsg (name : String) : String :=
  "Property '" ++ name ++ "' has !important and 'respect' mode is active - not overriding"

/-- The loop body of `PropertyMerger._merge_longhands`, threading
`(merged, infos, warnings)` over one override dict entry. -/
def mergeLonghandsStep (strategy : String) (state : Dict × List String × List String)
    (p : String × CSSProperty) : Dict × List String × List String :=
  let originalProp := dictGet? state.1 p.1
  if strategy = "respect" ∧ (originalProp.map (fun o => o.important)).getD false then
    (state.1, state.2.1 ++ [respectSkipMsg p.1], state.2.2)
  else
    let r := applyImportantStrategy originalProp p.2 strategy
    (dictInsert state.1 p.1 r.1, state.2.1 ++ r.2.1, state.2.2 ++ r.2.2)

/-- `PropertyMerger._merge_longhands`: start from the expanded source dict
and fold the expanded override dict over it, skipping important source
entries under `respect` and otherwise overwriting via
`applyImportantStrategy`. Returns `(merged, infos, warnings)`. -/
def mergeLonghands (sourceExpanded overrideExpanded : Dict) (strategy : String) :
    Dict × List String × List String :=
  overrideExpanded.foldl (mergeLonghandsStep strategy) (sourceExpanded, [], [])

/-- `PropertyMerger._try_combine_to_shorthand` (hybrid variant: only margin
and padding): choose the shortest box-model notation for four longhand
values. -/
def tryCombineToShorthand (values : List String) (shorthandName : String) :
    Option String :=
  if shorthandName ∈ ["margin", "padding"] then
    match values with
    | [top, right, bottom, left] =>
      if top = right ∧ right = bottom ∧ bottom = left then some top
      else if top = bottom ∧ left = right then some (top ++ " " ++ right)
      else if left = right then some (top ++ " " ++ right ++ " " ++ bottom)
      else some (top ++ " " ++ right ++ " " ++ bottom ++ " " ++ left)
    | _ => none
  else none

/-- The margin longhand group of `PropertyMerger._optimize_to_shorthands`. -/
def marginLonghandNames : List String :=
  ["margin-top", "margin-right", "margin-bottom", "margin-left"]

/-- The padding longhand group of `PropertyMerger._optimize_to_shorthands`. -/
def paddingLonghandNames : List String :=
  ["padding-top", "padding-right", "padding-bottom", "padding-left"]

/-- The shorthand groups of `PropertyMerger._optimize_to_shorthands`. -/
def shorthandGroups : List (List String × String) :=
  [(marginLonghandNames, "margin"), (paddingLonghandNames, "padding")]

/-- One iteration of the group loop in
`PropertyMerger._optimize_to_shorthands`, threading `(result, processed)`.
Note Python's truthiness: an empty combined value behaves like `None`. -/
def optimizeGroupStep (longhands : Dict) (state : List CSSProperty × List String)
    (group : List String × String) : List CSSProperty × List String :=
  let (result, processed) := state
  let (longhandNames, shorthandName) := group
  if longhandNames.all (fun n => hasKey longhands n ∧ n ∉ processed) then
    let values := longhandNames.map (fun n => (dictGet longhands n).value)
    match tryCombineToShorthand values shorthandName with
    | some combinedValue =>
      if combinedValue ≠ "" then
        let allImportant := longhandNames.all (fun n => (dictGet longhands n).important)
        let anyImportant := longhandNames.any (fun n => (dictGet longhands n).important)
        if allImportant ∨ ¬anyImportant then
          (result ++ [⟨shorthandName, combinedValue, allImportant⟩],
           processed ++ longhandNames)
        else
          longhandNames.foldl (fun (st : List CSSProperty × List String) n =>
            if n ∉ st.2 then (st.1 ++ [dictGet longhands n], st.2 ++ [n]) else st)
            (result, processed)
      else state
    | none => state
  else state

/-- `PropertyMerger._optimize_to_shorthands`: recombine complete margin /
padding longhand groups into shorthands (when importance is uniform), then
append all unprocessed properties in dict order. -/
def optimizeToShorthands (longhands : Dict) : List CSSProperty :=
  let st := shorthandGroups.foldl (optimizeGroupStep longhands) ([], [])
  st.1 ++ (longhands.filter (fun p => p.1 ∉ st.2)).map (fun p => p.2)

/-- `PropertyMerger.SMART_EXPAND_PROPERTIES` membership plus the longhand
check of `PropertyMerger._should_smart_expand`. -/
def shouldSmartExpand (propertyName : String) : Bool :=
  propertyName ∈ ["margin", "padding"] ∨
  (["margin", "padding"].any fun sp => pyStartsWith propertyName (sp ++ "-"))

/-- The loop body shared by `PropertyMerger._merge_cascade_mode` and the
cascade half of `PropertyMerger._merge_smart_mode`. -/
def cascadeStep (strategy : String) (state : Dict × List String × List String)
    (overrideProp : CSSProperty) : Dict × List String × List String :=
  let originalProp := dictGet? state.1 overrideProp.name
  if strategy = "respect" ∧ (originalProp.map (fun o => o.important)).getD false then
    (state.1, state.2.1 ++ [respectSkipMsg overrideProp.name], state.2.2)
  else
    let r := applyImportantStrategy originalProp overrideProp strategy
    (dictInsert state.1 overrideProp.name r.1, state.2.1 ++ r.2.1, state.2.2 ++ r.2.2)

/-- The override loop shared by `PropertyMerger._merge_cascade_mode` and the
cascade half of `PropertyMerger._merge_smart_mode`: fold overrides into the
dict with the `respect` skip and `applyImportantStrategy`. -/
def cascadeOverrideLoop (init : Dict) (override : List CSSProperty) (strategy : String) :
    Dict × List String × List String :=
  override.foldl (cascadeStep strategy) (init, [], [])

/-- `PropertyMerger._merge_cascade_mode`: plain name-keyed override, no
expansion. -/
def mergeCascadeMode (source override : List CSSProperty) (strategy : String) :
    List CSSProperty × List String × List String :=
  let sourceDict := source.foldl (fun d prop => dictInsert d prop.name prop) ([] : Dict)
  let ct := cascadeOverrideLoop sourceDict override strategy
  (dictValues ct.1, ct.2.1, ct.2.2)

/-- `PropertyMerger._merge_smart_mode`: split both sides into
smart-expandable (margin/padding family) and cascade properties, run the
expand → merge → recombine pipeline on the smart half and a plain cascade
merge on the rest. -/
def mergeSmartMode (source override : List CSSProperty) (strategy : String) :
    List CSSProperty × List String × List String :=
  let sourceSmart := (source.partition (fun p => shouldSmartExpand p.name)).1
  let sourceCascade := (source.partition (fun p => shouldSmartExpand p.name)).2
  let overrideSmart := (override.partition (fun p => shouldSmartExpand p.name)).1
  let overrideCascade := (override.partition (fun p => shouldSmartExpand p.name)).2
  let smartTriple :=
    if sourceSmart ≠ [] ∨ overrideSmart ≠ [] then
      let es := expandAllProperties sourceSmart
      let eo := expandAllProperties overrideSmart
      let ml := mergeLonghands es.1 eo.1 strategy
      (optimizeToShorthands ml.1, ml.2.1, es.2 ++ eo.2 ++ ml.2.2)
    else ([], [], [])
  let cascadeDict := sourceCascade.foldl
    (fun d prop => dictInsert d prop.name prop) ([] : Dict)
  let ct := cascadeOverrideLoop cascadeDict overrideCascade strategy
  (smartTriple.1 ++ dictValues ct.1, smartTriple.2.1 ++ ct.2.1,
   smartTriple.2.2 ++ ct.2.2)

/-- `PropertyMerger._merge_expand_mode`: expand everything, merge longhands,
recombine. -/
def mergeExpandMode (source override : List CSSProperty) (strategy : String) :
    List CSSProperty × List String × List String :=
  let es := expandAllProperties source
  let eo := expandAllProperties override
  let ml := mergeLonghands es.1 eo.1 strategy
  (optimizeToShorthands ml.1, ml.2.1, es.2 ++ eo.2 ++ ml.2.2)

/-- The valid importance strategy names accepted by `PropertyMerger.merge`. -/
def validStrategies : List String :=
  ["match", "respect", "override", "force", "strip"]

/-- Strategy validation in `PropertyMerger.merge`: unknown strategy names
fall back to `match`. -/
def validStrategy (importantStrategy : String) : String :=
  if importantStrategy ∉ validStrategies then "match" else importantStrategy

/-- `PropertyMerger.merge` from `csscade/property_merger_hybrid.py`:
validate the importance strategy (unknown names warn and fall back to
`match`) and dispatch on the configured shorthand strategy (`cascade`,
`smart`, else `expand`). Returns `(properties, infos, warnings)`. -/
def merge (shorthandStrategy : String) (source override : List CSSProperty)
    (importantStrategy : String) : List CSSProperty × List String × List String :=
  let strategy := validStrategy importantStrategy
  let initWarns :=
    if importantStrategy ∉ validStrategies then
      ["Unknown important strategy '" ++ importantStrategy ++ "', using 'match'"]
    else []
  let t :=
    if shorthandStrategy = "cascade" then mergeCascadeMode source override strategy
    else if shorthandStrategy = "smart" then mergeSmartMode source override strategy
    else mergeExpandMode source override strategy
  (t.1, t.2.1, initWarns ++ t.2.2)

/-- The longhand-level working set produced inside
`PropertyMerger._merge_smart_mode` (expand both smart halves, then
`_merge_longhands`), named so that invariants can be stated about it. -/
def smartMergedLonghands (source override : List CSSProperty) (strategy : String) : Dict :=
  (mergeLonghands
    (expandAllProperties ((source.partition fun p => shouldSmartExpand p.name).1)).1
    (expandAllProperties ((override.partition fun p => shouldSmartExpand p.name).1)).1
    strategy).1

/-- A dict is name-coherent when every stored property's `name` field equals
its key — an invariant of every dict the merger builds, since every
`d[k] = v` in the Python code has `k == v.name`. -/
def nameCoherent (d : Dict) : Prop := ∀ p ∈ d, p.2.name = p.1

/-- The net effect of one group iteration of
`PropertyMerger._optimize_to_shorthands` on a state whose processed set does
not meet the group: the pair of (properties emitted, names marked
processed). -/
def groupAction (longhands : Dict) (names : List String) (sh : String) :
    List CSSProperty × List String :=
  if names.all (fun n => hasKey longhands n) then
    match tryCombineToShorthand (names.map fun n => (dictGet longhands n).value) sh with
    | some combinedValue =>
      if combinedValue ≠ "" then
        let allImportant := names.all fun n => (dictGet longhands n).important
        let anyImportant := names.any fun n => (dictGet longhands n).important
        if allImportant ∨ ¬anyImportant then
          ([⟨sh, combinedValue, allImportant⟩], names)
        else (names.map fun n => dictGet longhands n, names)
      else ([], [])
    | none => ([], [])
  else ([], [])

/-- The recombination rule exactly as the claim C8 wording orders it
(`only left≠right → 3 values`), to be compared with
`tryCombineToShorthand`, which instead emits the 3-value notation when
`left == right`. -/
def claimWordedCombine (top right bottom left : String) : String :=
  if top = right ∧ right = bottom ∧ bottom = left then top
  else if top = bottom ∧ left = right then top ++ " " ++ right
  else if top = bottom ∧ left ≠ right then top ++ " " ++ right ++ " " ++ bottom
  else top ++ " " ++ right ++ " " ++ bottom ++ " " ++ left


/-! ### Theorems -/

/-- C1: under the `match` strategy in smart mode, merging source
`margin: 1px 2px 3px 4px` with override `margin-top: 9px` first expands the
shorthand and replaces only the top component in the longhand working set
(right/bottom/left keep 2px/3px/4px), and the recombined final result is
exactly the single property `margin: 9px 2px 3px 4px`, not important, with
no messages. -/
theorem claim_C1_subproperty_longhand_override :
    smartMergedLonghands [⟨"margin", "1px 2px 3px 4px", false⟩]
        [⟨"margin-top", "9px", false⟩] "match" =
      [("margin-top", ⟨"margin-top", "9px", false⟩),
       ("margin-right", ⟨"margin-right", "2px", false⟩),
       ("margin-bottom", ⟨"margin-bottom", "3px", false⟩),
       ("margin-left", ⟨"margin-left", "4px", false⟩)] ∧
    merge "smart" [⟨"margin", "1px 2px 3px 4px", false⟩]
        [⟨"margin-top", "9px", false⟩] "match" =
      ([⟨"margin", "9px 2px 3px 4px", false⟩], [], []) := by
  decide

/-- C3: the hybrid merge is total — it always returns a
`(properties, infos, warnings)` triple. The only partial operation in the
pipeline, the `value.split('/')` unpacking in the border-radius expander,
raises inside `expandShorthand` (second conjunct), and in full expansion
mode `merge` absorbs exactly that exception into a warning, returning
normally with the property kept as-is (third conjunct). -/
theorem claim_C3_merge_never_raises :
    (∀ (shorthandStrategy : String) (source override : List CSSProperty)
      (importantStrategy : String),
      ∃ out, merge shorthandStrategy source override importantStrategy = out) ∧
    expandShorthand "border-radius" "1px/2px/3px" =
      Except.error "too many values to unpack (expected 2)" ∧
    merge "expand" [⟨"border-radius", "1px/2px/3px", false⟩] [] "match" =
      ([⟨"border-radius", "1px/2px/3px", false⟩], [],
       ["Could not expand border-radius: too many values to unpack (expected 2)"]) :=
  ⟨fun _ _ _ _ => ⟨_, rfl⟩, rfl, by decide⟩

/-- C5 counterexample: for `margin` with five tokens, merge preserves the
shorthand unexpanded but the returned warnings list is empty — no warning
message is appended, contrary to the claim. -/
theorem claim_C5_counterexample :
    (merge "smart" [⟨"margin", "1px 2px 3px 4px 5px", false⟩] [] "match").2.2 = [] ∧
    merge "smart" [⟨"margin", "1px 2px 3px 4px 5px", false⟩] [] "match" =
      ([⟨"margin", "1px 2px 3px 4px 5px", false⟩], [], []) := by
  decide

/-- C8 counterexample: at longhand values (top, right, bottom, left) =
(1px, 2px, 1px, 3px) — where only left≠right among the pair equalities —
the claimed rule produces the 3-value notation `1px 2px 1px` but the
recombiner produces the 4-value notation `1px 2px 1px 3px`. -/
theorem claim_C8_counterexample :
    tryCombineToShorthand ["1px", "2px", "1px", "3px"] "margin" =
      some "1px 2px 1px 3px" ∧
    claimWordedCombine "1px" "2px" "1px" "3px" = "1px 2px 1px" ∧
    tryCombineToShorthand ["1px", "2px", "1px", "3px"] "margin" ≠
      some (claimWordedCombine "1px" "2px" "1px" "3px") := by
  decide

/-- C8 (amended): the recombiner chooses the shortest notation by: all four
equal → 1 value; opposite pairs equal → 2 values `top right`; left = right
but top ≠ bottom → 3 values `top right bottom`; left ≠ right → 4 values. -/
theorem claim_C8_recombiner_shortest (sh top right bottom left : String)
    (hsh : sh = "margin" ∨ sh = "padding") :
    (top = right → right = bottom → bottom = left →
      tryCombineToShorthand [top, right, bottom, left] sh = some top) ∧
    (top = bottom → left = right → ¬(top = right ∧ right = bottom ∧ bottom = left) →
      tryCombineToShorthand [top, right, bottom, left] sh =
        some (top ++ " " ++ right)) ∧
    (left = right → top ≠ bottom →
      tryCombineToShorthand [top, right, bottom, left] sh =
        some (top ++ " " ++ right ++ " " ++ bottom)) ∧
    (left ≠ right →
      tryCombineToShorthand [top, right, bottom, left] sh =
        some (top ++ " " ++ right ++ " " ++ bottom ++ " " ++ left)) := by
  have hmem : sh ∈ ["margin", "padding"] := by
    rcases hsh with rfl | rfl <;> simp
  refine ⟨?_, ?_, ?_, ?_⟩
  · rintro rfl rfl rfl
    simp [tryCombineToShorthand, hmem]
  · intro h1 h2 h3
    simp only [tryCombineToShorthand, hmem, if_pos]
    rw [if_neg h3, if_pos ⟨h1, h2⟩]
  · intro h1 h2
    have hne : ¬(top = right ∧ right = bottom ∧ bottom = left) := by
      rintro ⟨rfl, rfl, rfl⟩; exact h2 rfl
    simp only [tryCombineToShorthand, hmem, if_pos]
    rw [if_neg hne, if_neg (by tauto), if_pos h1]
  · intro h1
    have hne : ¬(top = right ∧ right = bottom ∧ bottom = left) := by
      rintro ⟨rfl, rfl, rfl⟩; exact h1 rfl
    simp only [tryCombineToShorthand, hmem, if_pos]
    rw [if_neg hne, if_neg (by tauto), if_neg h1]

/-- Witness for C8 (amended) at (margin, 5px, 5px, 5px, 5px): all four
values equal gives the 1-value notation. -/
theorem claim_C8_witness :
    tryCombineToShorthand ["5px", "5px", "5px", "5px"] "margin" = some "5px" :=
  (claim_C8_recombiner_shortest "margin" "5px" "5px" "5px" "5px"
    (Or.inl rfl)).1 rfl rfl rfl

/-- C10 counterexample: for the value `red !IMPORTANT ` (uppercase token,
trailing blank) the parser returns the value stripped of surrounding
whitespace — not unmodified — with important = false. -/
theorem claim_C10_counterexample :
    parseValueWithImportant "red !IMPORTANT " = ("red !IMPORTANT", false) ∧
    "red !IMPORTANT" ≠ "red !IMPORTANT " := by
  decide

/-- C10 (amended): `!important` is recognized exactly when the stripped
value ends with lowercase `!important` or `! important`; on recognition the
clean value is the stripped remainder after removing the suffix; otherwise
the value is returned stripped of surrounding whitespace but otherwise
unmodified, with important = false. Concrete instances cover the lowercase,
spaced, mid-string and wrong-case cases. -/
theorem claim_C10_important_recognition :
    (∀ value : String,
      ((parseValueWithImportant value).2 =
        (pyEndsWith (pyStrip value) "!important" ∨
         pyEndsWith (pyStrip value) "! important")) ∧
      ((parseValueWithImportant value).2 = false →
        (parseValueWithImportant value).1 = pyStrip value) ∧
      (pyEndsWith (pyStrip value) "!important" = true →
        (parseValueWithImportant value).1 =
          pyStrip (pyDropRight (pyStrip value) 10))) ∧
    parseValueWithImportant "blue !important" = ("blue", true) ∧
    parseValueWithImportant "x ! important" = ("x", true) ∧
    parseValueWithImportant "!important red" = ("!important red", false) ∧
    parseValueWithImportant "red !Important" = ("red !Important", false) := by
  refine ⟨fun value => ?_, by decide, by decide, by decide, by decide⟩
  by_cases hv : value = ""
  · subst hv
    refine ⟨by decide, fun _ => by decide, fun h => ?_⟩
    exact absurd h (by decide)
  · simp only [parseValueWithImportant, hv, if_neg]
    by_cases h1 : pyEndsWith (pyStrip value) "!important"
    · simp [h1]
    · by_cases h2 : pyEndsWith (pyStrip value) "! important"
      · simp [h1, h2]
      · simp [h1, h2]

/-- Witness for C10 (amended) at the mid-string value `!important red`:
not recognized, so the result is the stripped value with important =
false. -/
theorem claim_C10_witness :
    (parseValueWithImportant " !important red ").1 = pyStrip " !important red " :=
  ((claim_C10_important_recognition.1 " !important red ").2.1 (by decide))

/-- C9 counterexample: merging `margin: 1px 2px 1px 2px` with an empty
override under `match` normalizes the value to the 2-value notation
`1px 2px`, so the result is not value-equal to the source set. -/
theorem claim_C9_counterexample :
    merge "smart" [⟨"margin", "1px 2px 1px 2px", false⟩] [] "match" =
      ([⟨"margin", "1px 2px", false⟩], [], []) ∧
    merge "smart" [⟨"margin", "1px 2px 1px 2px", false⟩] [] "match" ≠
      ([⟨"margin", "1px 2px 1px 2px", false⟩], [], []) := by
  decide

/-- C6: under the `match` strategy, the merged property for an overridden
name is the override's parsed value; it keeps the override's own flag when
the override's value carries an explicit `!important`, is forced important
with an info message when only the original is important, and is
non-important otherwise. The second conjunct is the concrete instance
`merge({color: red !important}, {color: blue}, match)`. -/
theorem claim_C6_match_strategy :
    (∀ (original : Option CSSProperty) (override : CSSProperty),
      applyImportantStrategy original override "match" =
        (if (parseValueWithImportant override.value).2 then
          (⟨override.name, (parseValueWithImportant override.value).1, true⟩, [], [])
         else if (original.map fun o => o.important).getD false then
          (⟨override.name, (parseValueWithImportant override.value).1, true⟩,
           ["Property '" ++ override.name ++ "' marked !important to match original"], [])
         else
          (⟨override.name, (parseValueWithImportant override.value).1, false⟩, [], []))) ∧
    merge "smart" [⟨"color", "red", true⟩] [⟨"color", "blue", false⟩] "match" =
      ([⟨"color", "blue", true⟩],
       ["Property 'color' marked !important to match original"], []) := by
  refine ⟨fun original override => ?_, by decide⟩
  unfold applyImportantStrategy
  rcases hp : parseValueWithImportant override.value with ⟨c, imp⟩
  simp only [hp]
  rcases imp with _ | _
  · by_cases ho : (original.map fun o => o.important).getD false
    · simp [ho]
    · simp [ho]
  · simp

/-- Helper: the regular box-model pattern returns the property unexpanded
for token counts outside 1–4. -/
theorem boxModelRegular_fallthrough (parts : List String) (pfx value : String)
    (h : parts.length ∉ ([1, 2, 3, 4] : List Nat)) :
    boxModelRegular parts pfx value = [⟨pfx, value, false⟩] := by
  rcases parts with _ | ⟨a, _ | ⟨b, _ | ⟨c, _ | ⟨d, _ | ⟨e, rest⟩⟩⟩⟩⟩ <;>
    first
    | rfl
    | (exfalso; simp at h)

/-- Helper: a margin shorthand with a token count outside 1–4 expands to
itself. -/
theorem expandBoxModel_margin_fallthrough (v : String)
    (h : (pySplit (pyStrip v)).length ∉ ([1, 2, 3, 4] : List Nat)) :
    expandBoxModel v "margin" = [⟨"margin", v, false⟩] := by
  unfold expandBoxModel
  simp only [if_neg (by decide : ¬("margin" : String) = "")]
  rw [if_neg (by decide : ¬ pyStartsWith "margin" "border-" = true)]
  exact boxModelRegular_fallthrough _ _ _ h

/-- C5 (amended): a `margin` shorthand whose value has a token count invalid
for the box-model rule does not raise — the original property is preserved
unexpanded in the result and processing continues — but, contrary to the
original claim, no warning message is recorded: the expander returns the
property silently and the warnings list stays empty. -/
theorem claim_C5_malformed_shorthand (v : String)
    (h : (pySplit (pyStrip v)).length ∉ ([1, 2, 3, 4] : List Nat)) :
    merge "smart" [⟨"margin", v, false⟩] [] "match" =
      ([⟨"margin", v, false⟩], [], []) := by
  have hbox := expandBoxModel_margin_fallthrough v h
  have h1 : shouldSmartExpand "margin" = true := by decide
  have h2 : isShorthand "margin" = true := by decide
  simp [merge, validStrategy, validStrategies, mergeSmartMode,
    List.partition_eq_filter_filter, h1, h2, expandAllProperties, expandStep,
    expandShorthand, hbox, mergeLonghands, optimizeToShorthands, shorthandGroups,
    optimizeGroupStep, hasKey, dictInsert, dictValues, marginLonghandNames,
    paddingLonghandNames, cascadeOverrideLoop, dictKeys]

/-- Witness for C5 (amended) at `margin: 1px 2px 3px 4px 5px`. -/
theorem claim_C5_witness :
    merge "smart" [⟨"margin", "1px 2px 3px 4px 5px", false⟩] [] "match" =
      ([⟨"margin", "1px 2px 3px 4px 5px", false⟩], [], []) :=
  claim_C5_malformed_shorthand "1px 2px 3px 4px 5px" (by decide)

/-- Helper: `k in (d1 ++ d2)` splits over the append. -/
theorem hasKey_append (d1 d2 : Dict) (k : String) :
    hasKey (d1 ++ d2) k = (hasKey d1 k || hasKey d2 k) := by
  simp [hasKey, List.any_append]

/-- Helper: inserting a fresh key appends the pair. -/
theorem dictInsert_fresh (d : Dict) (k : String) (v : CSSProperty)
    (h : hasKey d k = false) : dictInsert d k v = d ++ [(k, v)] := by
  simp [dictInsert, h]

/-- Helper: folding `d[p.name] = p` over a list of properties with fresh,
pairwise-distinct names appends the corresponding pairs in order. -/
theorem foldl_dictInsert_fresh (l : List CSSProperty) :
    ∀ d : Dict, (∀ p ∈ l, hasKey d p.name = false) →
    (l.map (fun p => p.name)).Nodup →
    l.foldl (fun d prop => dictInsert d prop.name prop) d =
      d ++ l.map (fun p => (p.name, p)) := by
  induction l with
  | nil => intro d _ _; simp
  | cons p rest ih =>
    intro d hfresh hnodup
    simp only [List.foldl_cons]
    rw [dictInsert_fresh _ _ _ (hfresh p (by simp))]
    have hnd : (rest.map (fun p => p.name)).Nodup := by
      simp [List.nodup_cons] at hnodup
      exact hnodup.2
    have hne : ∀ q ∈ rest, q.name ≠ p.name := by
      intro q hq
      simp [List.nodup_cons] at hnodup
      exact fun hh => hnodup.1 q hq hh
    rw [ih (d ++ [(p.name, p)]) ?_ hnd]
    · simp
    · intro q hq
      have h1 := hfresh q (by simp [hq])
      simp only [hasKey, List.any_eq_false, decide_eq_true_eq] at h1 ⊢
      intro pr hpr
      rcases List.mem_append.1 hpr with hin | hin
      · exact h1 pr hin
      · rcases List.mem_singleton.1 hin with rfl
        exact fun hh => hne q hq hh.symm

/-- C9 (amended): merging a name-unique source set that contains no
margin/padding-family (smart-expanded) property with an empty override
under `match` is the identity, with empty info and warning lists. (For
smart-expanded shorthands the merge re-expands and recombines, which can
normalize the value to a shorter notation — see the counterexample — so the
identity holds only outside that family.) -/
theorem claim_C9_noop_identity (S : List CSSProperty)
    (hnodup : (S.map fun p => p.name).Nodup)
    (hplain : ∀ p ∈ S, shouldSmartExpand p.name = false) :
    merge "smart" S [] "match" = (S, [], []) := by
  have hsmart : S.filter (fun p => shouldSmartExpand p.name) = [] := by
    rw [List.filter_eq_nil_iff]
    intro p hp
    simp [hplain p hp]
  have hcascade : S.filter (not ∘ fun p => shouldSmartExpand p.name) = S := by
    rw [List.filter_eq_self]
    intro p hp
    simp [Function.comp, hplain p hp]
  have hfold := foldl_dictInsert_fresh S ([] : Dict)
    (by intro p _; rfl) hnodup
  simp only [merge, validStrategy, validStrategies, mergeSmartMode,
    List.partition_eq_filter_filter, hsmart, hcascade]
  simp [cascadeOverrideLoop, hfold, dictValues, List.map_map]
  show List.map id S = S
  exact List.map_id S

/-- Witness for C9 (amended) at a two-property cascade-only source set. -/
theorem claim_C9_witness :
    merge "smart" [⟨"color", "red", true⟩, ⟨"display", "block", false⟩] [] "match" =
      ([⟨"color", "red", true⟩, ⟨"display", "block", false⟩], [], []) :=
  claim_C9_noop_identity _ (by decide) (by decide)

/-- Helper lemmas for the dict model and the `respect` fold. -/
lemma find?_mapReplace (d : Dict) (k name : String) (v : CSSProperty) (h : k ≠ name) :
    (d.map (fun p => if p.1 = k then (k, v) else p)).find? (fun p => p.1 = name) =
      d.find? (fun p => p.1 = name) := by
  induction d with
  | nil => rfl
  | cons pr rest ih =>
    simp only [List.map_cons, List.find?_cons]
    by_cases hpk : pr.1 = k
    · rw [if_pos hpk]
      have h1 : (decide (k = name)) = false := by simp [h]
      have h2 : (decide (pr.1 = name)) = false := by simp [hpk, h]
      simp [h1, h2, ih]
    · rw [if_neg hpk]
      by_cases hpn : pr.1 = name
      · simp [hpn]
      · simp [hpn, ih]

lemma dictGet?_insert_ne (d : Dict) (k name : String) (v : CSSProperty) (h : k ≠ name) :
    dictGet? (dictInsert d k v) name = dictGet? d name := by
  unfold dictInsert
  split
  · simp [dictGet?, find?_mapReplace d k name v h]
  · simp [dictGet?, List.find?_append, h]

lemma dictGet?_insert_same (d : Dict) (k : String) (v : CSSProperty) :
    dictGet? (dictInsert d k v) k = some v := by
  unfold dictInsert
  split
  case isTrue hk =>
    induction d with
    | nil => simp [hasKey] at hk
    | cons pr rest ih =>
      simp only [List.map_cons]
      by_cases hpk : pr.1 = k
      · simp [dictGet?, List.find?_cons, if_pos hpk]
      · rw [if_neg hpk]
        have hk' : hasKey rest k = true := by
          simp [hasKey] at hk ⊢
          rcases hk with h | h
          · exact absurd h hpk
          · exact h
        simp [dictGet?, List.find?_cons, hpk] at ih ⊢
        exact ih hk'
  case isFalse hk =>
    have hall : ∀ pr ∈ d, ¬(pr.1 = k) := by
      intro pr hpr hh
      simp [hasKey, List.any_eq_false] at hk
      exact hk pr.2 (by rw [← hh]; simpa using hpr)
    have hnone : d.find? (fun p => p.1 = k) = none := by
      cases hfd : d.find? (fun p => p.1 = k) with
      | none => rfl
      | some pr =>
        have hmem := List.mem_of_find?_eq_some hfd
        have hpred := List.find?_some hfd
        simp only [decide_eq_true_eq] at hpred
        exact absurd hpred (hall pr hmem)
    simp [dictGet?, List.find?_append, hnone]

lemma mergeLonghandsStep_dict_ne (strategy : String)
    (acc : Dict × List String × List String) (pr : String × CSSProperty)
    (name : String) (h : pr.1 ≠ name) :
    dictGet? (mergeLonghandsStep strategy acc pr).1 name = dictGet? acc.1 name := by
  unfold mergeLonghandsStep
  dsimp only
  split
  · rfl
  · exact dictGet?_insert_ne acc.1 pr.1 name _ h

lemma foldl_mergeStep_get_ne (strategy : String) (l : List (String × CSSProperty)) :
    ∀ (acc : Dict × List String × List String) (name : String),
    (∀ pr ∈ l, pr.1 ≠ name) →
    dictGet? ((l.foldl (mergeLonghandsStep strategy) acc).1) name = dictGet? acc.1 name := by
  induction l with
  | nil => intro acc name _; rfl
  | cons pr rest ih =>
    intro acc name hall
    simp only [List.foldl_cons]
    rw [ih _ name (fun q hq => hall q (List.mem_cons_of_mem _ hq))]
    exact mergeLonghandsStep_dict_ne strategy acc pr name (hall pr (List.mem_cons_self _ _))

lemma mergeStep_infos_extend (strategy : String)
    (acc : Dict × List String × List String) (pr : String × CSSProperty) :
    ∃ t, (mergeLonghandsStep strategy acc pr).2.1 = acc.2.1 ++ t := by
  unfold mergeLonghandsStep
  dsimp only
  split
  · exact ⟨_, rfl⟩
  · exact ⟨_, rfl⟩

lemma foldl_mergeStep_infos_mono (strategy : String) (l : List (String × CSSProperty)) :
    ∀ (acc : Dict × List String × List String) (s : String), s ∈ acc.2.1 →
    s ∈ ((l.foldl (mergeLonghandsStep strategy) acc).2.1) := by
  induction l with
  | nil => intro acc s h; exact h
  | cons pr rest ih =>
    intro acc s h
    simp only [List.foldl_cons]
    apply ih
    rcases mergeStep_infos_extend strategy acc pr with ⟨t, ht⟩
    rw [ht]
    exact List.mem_append_left _ h

lemma respect_fold_keep (l : List (String × CSSProperty)) :
    ∀ (acc : Dict × List String × List String) (name : String) (p : CSSProperty),
    dictGet? acc.1 name = some p → p.important = true →
    dictGet? ((l.foldl (mergeLonghandsStep "respect") acc).1) name = some p := by
  induction l with
  | nil => intro acc name p h _; exact h
  | cons pr rest ih =>
    intro acc name p h himp
    simp only [List.foldl_cons]
    by_cases hk : pr.1 = name
    · apply ih _ name p _ himp
      have hs : (mergeLonghandsStep "respect" acc pr).1 = acc.1 := by
        unfold mergeLonghandsStep
        rw [hk, if_pos]
        simp [h, himp]
      rw [hs]
      exact h
    · apply ih _ name p _ himp
      rw [mergeLonghandsStep_dict_ne _ _ _ _ hk]
      exact h

lemma respect_fold_msg (l : List (String × CSSProperty)) :
    ∀ (acc : Dict × List String × List String) (name : String) (p : CSSProperty),
    dictGet? acc.1 name = some p → p.important = true →
    (∃ pr ∈ l, pr.1 = name) →
    respectSkipMsg name ∈ ((l.foldl (mergeLonghandsStep "respect") acc).2.1) := by
  induction l with
  | nil =>
    rintro acc name p _ _ ⟨pr, hmem, _⟩
    cases hmem
  | cons pr rest ih =>
    intro acc name p h himp hex
    simp only [List.foldl_cons]
    by_cases hk : pr.1 = name
    · apply foldl_mergeStep_infos_mono
      have hs : (mergeLonghandsStep "respect" acc pr).2.1 =
          acc.2.1 ++ [respectSkipMsg name] := by
        unfold mergeLonghandsStep
        rw [hk, if_pos]
        simp [h, himp]
      rw [hs]
      exact List.mem_append_right _ (List.mem_singleton_self _)
    · rcases hex with ⟨q, hqmem, hqname⟩
      rcases List.mem_cons.1 hqmem with rfl | hq
      · exact absurd hqname hk
      · apply ih _ name p _ himp ⟨q, hq, hqname⟩
        rw [mergeLonghandsStep_dict_ne _ _ _ _ hk]
        exact h

lemma respect_fold_override (l : List (String × CSSProperty)) :
    ∀ (acc : Dict × List String × List String) (name : String) (p q : CSSProperty),
    (l.map (fun pr => pr.1)).Nodup →
    dictGet? acc.1 name = some p → p.important = false →
    (name, q) ∈ l →
    dictGet? ((l.foldl (mergeLonghandsStep "respect") acc).1) name =
      some (applyImportantStrategy (some p) q "respect").1 := by
  induction l with
  | nil => intro acc name p q _ _ _ hmem; cases hmem
  | cons pr rest ih =>
    intro acc name p q hnodup h himp hmem
    simp only [List.foldl_cons]
    rcases List.mem_cons.1 hmem with heq | hmemr
    · rcases heq.symm with rfl
      have hnames : ∀ pr2 ∈ rest, pr2.1 ≠ name := by
        intro pr2 hpr2 hh
        simp only [List.map_cons, List.nodup_cons] at hnodup
        exact hnodup.1 (List.mem_map.2 ⟨pr2, hpr2, hh⟩)
      rw [foldl_mergeStep_get_ne "respect" rest _ name hnames]
      have hs : (mergeLonghandsStep "respect" acc (name, q)).1 =
          dictInsert acc.1 name (applyImportantStrategy (dictGet? acc.1 name) q "respect").1 := by
        unfold mergeLonghandsStep
        rw [if_neg]
        simp [h, himp]
      rw [hs, h, dictGet?_insert_same]
    · have hk : pr.1 ≠ name := by
        intro hh
        simp only [List.map_cons, List.nodup_cons] at hnodup
        exact hnodup.1 (List.mem_map.2 ⟨(name, q), hmemr, hh ▸ rfl⟩)
      apply ih _ name p q _ _ himp hmemr
      · simp only [List.map_cons, List.nodup_cons] at hnodup
        exact hnodup.2
      · rw [mergeLonghandsStep_dict_ne _ _ _ _ hk]
        exact h

/-- C7 counterexample: with source `margin: 1px !important` and override
`margin-top: 9px` under `respect`, the override is skipped and the merged
working set keeps `margin-top: 1px !important`, but recombination collapses
the group, so the final list is the single property `margin: 1px !important`
and no property named `margin-top` appears in the result — contradicting
the claim that the source property at that name appears unchanged. -/
theorem claim_C7_counterexample :
    merge "smart" [⟨"margin", "1px", true⟩] [⟨"margin-top", "9px", false⟩] "respect" =
      ([⟨"margin", "1px", true⟩], [respectSkipMsg "margin-top"], []) ∧
    dictGet? (smartMergedLonghands [⟨"margin", "1px", true⟩]
        [⟨"margin-top", "9px", false⟩] "respect") "margin-top" =
      some ⟨"margin-top", "1px", true⟩ ∧
    ((merge "smart" [⟨"margin", "1px", true⟩] [⟨"margin-top", "9px", false⟩]
        "respect").1.map (fun p => p.name)) = ["margin"] := by
  decide

/-- C7 (amended): under `respect`, for every name whose expanded source
property is important, the longhand merge keeps the source entry unchanged
at that name (the override value never replaces it) and records the skip
info message whenever the override addresses that name; names whose source
property is not important are overridden normally via the strategy
application. The final conjunct is the end-to-end spec instance
`merge({color: red !important}, {color: blue}, respect)`. -/
theorem claim_C7_respect_skip :
    (∀ (src ovr : Dict) (name : String) (p : CSSProperty),
      dictGet? src name = some p → p.important = true →
      dictGet? (mergeLonghands src ovr "respect").1 name = some p) ∧
    (∀ (src ovr : Dict) (name : String) (p : CSSProperty),
      dictGet? src name = some p → p.important = true → hasKey ovr name = true →
      respectSkipMsg name ∈ (mergeLonghands src ovr "respect").2.1) ∧
    (∀ (src ovr : Dict) (name : String) (p q : CSSProperty),
      (dictKeys ovr).Nodup →
      dictGet? src name = some p → p.important = false →
      dictGet? ovr name = some q →
      dictGet? (mergeLonghands src ovr "respect").1 name =
        some (applyImportantStrategy (some p) q "respect").1) ∧
    merge "smart" [⟨"color", "red", true⟩] [⟨"color", "blue", false⟩] "respect" =
      ([⟨"color", "red", true⟩], [respectSkipMsg "color"], []) := by
  refine ⟨?_, ?_, ?_, by decide⟩
  · intro src ovr name p h himp
    exact respect_fold_keep ovr (src, [], []) name p h himp
  · intro src ovr name p h himp hkey
    apply respect_fold_msg ovr (src, [], []) name p h himp
    simpa [hasKey, List.any_eq_true] using hkey
  · intro src ovr name p q hnodup h himp hget
    have hmem : (name, q) ∈ ovr := by
      unfold dictGet? at hget
      rcases hf : ovr.find? (fun pr => pr.1 = name) with _ | ⟨a, b⟩
      · rw [hf] at hget
        cases hget
      · rw [hf] at hget
        simp only [Option.map_some'] at hget
        have hp1 := List.find?_some hf
        simp only [decide_eq_true_eq] at hp1
        have hm := List.mem_of_find?_eq_some hf
        injection hget with hb
        rw [hp1] at hm
        rw [hb] at hm
        exact hm
    exact respect_fold_override ovr (src, [], []) name p q hnodup h himp hmem

/-- Witness for C7 (amended): a concrete important source entry survives a
conflicting override under `respect`. -/
theorem claim_C7_witness :
    dictGet? (mergeLonghands [("color", ⟨"color", "red", true⟩)]
        [("color", ⟨"color", "blue", false⟩)] "respect").1 "color" =
      some ⟨"color", "red", true⟩ :=
  claim_C7_respect_skip.1 [("color", ⟨"color", "red", true⟩)]
    [("color", ⟨"color", "blue", false⟩)] "color" ⟨"color", "red", true⟩
    (by decide) (by decide)

/-- Helper lemmas for the optimizer decomposition and the dict invariants
(key uniqueness, name coherence, smart/cascade key separation). -/
lemma hasKey_iff (d : Dict) (k : String) : hasKey d k = true ↔ k ∈ dictKeys d := by
  simp [hasKey, dictKeys, List.any_eq_true, List.mem_map]

lemma hasKey_false_iff (d : Dict) (k : String) :
    hasKey d k = false ↔ k ∉ dictKeys d := by
  rw [← Bool.not_eq_true, not_iff_not]
  exact hasKey_iff d k

lemma dictKeys_insert (d : Dict) (k : String) (v : CSSProperty) :
    dictKeys (dictInsert d k v) =
      if hasKey d k = true then dictKeys d else dictKeys d ++ [k] := by
  unfold dictInsert
  split
  case isTrue h =>
    unfold dictKeys
    rw [List.map_map]
    apply List.map_congr_left
    intro p _
    by_cases hp : p.1 = k
    · simp [hp]
    · simp [hp]
  case isFalse h =>
    simp [dictKeys]

lemma keysNodup_insert (d : Dict) (k : String) (v : CSSProperty)
    (h : (dictKeys d).Nodup) : (dictKeys (dictInsert d k v)).Nodup := by
  rw [dictKeys_insert]
  split
  · exact h
  case isFalse hk =>
    have : k ∉ dictKeys d := (hasKey_false_iff d k).1 (by simpa using hk)
    simp [List.nodup_append, h, this]

lemma coherent_insert (d : Dict) (k : String) (v : CSSProperty)
    (hco : nameCoherent d) (hv : v.name = k) : nameCoherent (dictInsert d k v) := by
  unfold dictInsert
  split
  · intro p hp
    rcases List.mem_map.1 hp with ⟨q, hq, rfl⟩
    by_cases h : q.1 = k
    · simp [h, hv]
    · simp [h]
      exact hco q hq
  · intro p hp
    rcases List.mem_append.1 hp with h | h
    · exact hco p h
    · rcases List.mem_singleton.1 h with rfl
      exact hv

lemma dictInsert_keys_pred (P : String → Prop) (d : Dict) (k : String) (v : CSSProperty)
    (hd : ∀ k' ∈ dictKeys d, P k') (hk : P k) :
    ∀ k' ∈ dictKeys (dictInsert d k v), P k' := by
  rw [dictKeys_insert]
  split
  · exact hd
  · intro k' hk'
    rcases List.mem_append.1 hk' with h | h
    · exact hd k' h
    · rcases List.mem_singleton.1 h with rfl
      exact hk

lemma foldl_preserves {α β : Type} (P : β → Prop) (f : β → α → β) :
    ∀ (l : List α) (b : β), (∀ b a, a ∈ l → P b → P (f b a)) → P b → P (l.foldl f b) := by
  intro l
  induction l with
  | nil => intro b _ h; exact h
  | cons a rest ih =>
    intro b hstep h
    simp only [List.foldl_cons]
    exact ih (f b a) (fun b' a' ha' => hstep b' a' (List.mem_cons_of_mem _ ha'))
      (hstep b a (List.mem_cons_self _ _) h)

lemma applyImportantStrategy_name (o : Option CSSProperty) (q : CSSProperty) (s : String) :
    (applyImportantStrategy o q s).1.name = q.name := by
  unfold applyImportantStrategy
  dsimp only
  split
  · split <;> rfl
  · split
    · split <;> rfl
    · split
      · split <;> rfl
      · split
        · split <;> rfl
        · rfl

lemma ite_important_name (c : Prop) [Decidable c] (lh : CSSProperty) :
    (if c then { lh with important := true } else lh).name = lh.name := by
  split <;> rfl

lemma dictGet_name (m : Dict) (n : String) (hco : nameCoherent m)
    (hk : hasKey m n = true) : (dictGet m n).name = n := by
  unfold dictGet dictGet?
  rcases hf : m.find? (fun pr => pr.1 = n) with _ | pr
  · exfalso
    have : ∃ pr ∈ m, pr.1 = n := by
      simpa [hasKey, List.any_eq_true] using hk
    rcases this with ⟨pr, hmem, hname⟩
    have := List.find?_eq_none.1 hf pr hmem
    simp [hname] at this
  · have hp1 := List.find?_some hf
    simp only [decide_eq_true_eq] at hp1
    have hm := List.mem_of_find?_eq_some hf
    rw [hf]
    simp only [Option.map_some', Option.getD_some]
    rw [hco pr hm, hp1]

lemma mixedFold (m : Dict) (names : List String) :
    ∀ (res : List CSSProperty) (pr : List String),
    (∀ n ∈ names, n ∉ pr) → names.Nodup →
    names.foldl (fun (st : List CSSProperty × List String) n =>
      if n ∉ st.2 then (st.1 ++ [dictGet m n], st.2 ++ [n]) else st) (res, pr) =
    (res ++ names.map (fun n => dictGet m n), pr ++ names) := by
  induction names with
  | nil => intro res pr _ _; simp
  | cons n rest ih =>
    intro res pr hdisj hnodup
    simp only [List.foldl_cons]
    rw [if_pos (hdisj n (List.mem_cons_self _ _))]
    rw [ih (res ++ [dictGet m n]) (pr ++ [n]) ?_ ?_]
    · simp
    · intro n2 hn2
      simp only [List.mem_append, List.mem_singleton]
      rintro (h | rfl)
      · exact hdisj n2 (List.mem_cons_of_mem _ hn2) h
      · simp [List.nodup_cons] at hnodup
        exact hnodup.1 hn2
    · simp [List.nodup_cons] at hnodup
      exact hnodup.2

lemma optimizeGroupStep_eq (m : Dict) (state : List CSSProperty × List String)
    (names : List String) (sh : String)
    (hdisj : ∀ n ∈ names, n ∉ state.2) (hnodup : names.Nodup) :
    optimizeGroupStep m state (names, sh) =
      (state.1 ++ (groupAction m names sh).1, state.2 ++ (groupAction m names sh).2) := by
  rcases state with ⟨res, pr⟩
  unfold optimizeGroupStep groupAction
  dsimp only
  have hguard : (names.all fun n => decide (hasKey m n = true ∧ n ∉ pr)) =
      (names.all fun n => hasKey m n) := by
    cases hval : (names.all fun n => hasKey m n)
    · rw [List.all_eq_false] at hval ⊢
      rcases hval with ⟨n, hn, hfalse⟩
      refine ⟨n, hn, ?_⟩
      simp [hfalse]
    · rw [List.all_eq_true] at hval ⊢
      intro n hn
      simp only [decide_eq_true_eq]
      exact ⟨hval n hn, hdisj n hn⟩
  rw [hguard]
  cases hall : (names.all fun n => hasKey m n)
  · simp [hall]
  · simp only [hall, if_true]
    rcases hcv : tryCombineToShorthand (names.map fun n => (dictGet m n).value) sh
      with _ | cv
    · simp [hcv]
    · simp only [hcv]
      by_cases hne : cv ≠ ""
      · rw [if_pos hne, if_pos hne]
        by_cases himp : (names.all fun n => (dictGet m n).important) = true ∨
            ¬(names.any fun n => (dictGet m n).important) = true
        · rw [if_pos himp, if_pos himp]
        · rw [if_neg himp, if_neg himp]
          exact mixedFold m names res pr hdisj hnodup
      · rw [if_neg hne, if_neg hne]
        simp

lemma groupAction_processed (m : Dict) (names : List String) (sh : String) :
    (groupAction m names sh).2 = names ∨ (groupAction m names sh).2 = [] := by
  unfold groupAction
  split
  · split
    · split
      · dsimp only
        split
        · exact Or.inl rfl
        · exact Or.inl rfl
      · exact Or.inr rfl
    · exact Or.inr rfl
  · exact Or.inr rfl

lemma optimizeToShorthands_eq (m : Dict) :
    optimizeToShorthands m =
      (groupAction m marginLonghandNames "margin").1 ++
      ((groupAction m paddingLonghandNames "padding").1 ++
       (m.filter (fun p => p.1 ∉
         (groupAction m marginLonghandNames "margin").2 ++
         (groupAction m paddingLonghandNames "padding").2)).map (fun p => p.2)) := by
  unfold optimizeToShorthands
  simp only [shorthandGroups, List.foldl_cons, List.foldl_nil]
  have h1 := optimizeGroupStep_eq m ([], []) marginLonghandNames "margin"
    (by intro n _ h; cases h) (by decide)
  simp only [List.nil_append] at h1
  have hd : ∀ n ∈ paddingLonghandNames,
      n ∉ (groupAction m marginLonghandNames "margin").2 := by
    rcases groupAction_processed m marginLonghandNames "margin" with h | h <;>
      rw [h] <;> decide
  have h2 := optimizeGroupStep_eq m
    ((groupAction m marginLonghandNames "margin").1,
     (groupAction m marginLonghandNames "margin").2)
    paddingLonghandNames "padding" hd (by decide)
  simp only [h1, h2]
  simp [List.append_assoc]

lemma groupAction_shape (m : Dict) (names : List String) (sh : String) :
    groupAction m names sh = ([], []) ∨
    (∃ cv imp, groupAction m names sh = ([⟨sh, cv, imp⟩], names)) ∨
    (groupAction m names sh = (names.map (fun n => dictGet m n), names) ∧
     ∀ n ∈ names, hasKey m n = true) := by
  unfold groupAction
  split
  case isTrue hguard =>
    split
    · split
      · dsimp only
        split
        · exact Or.inr (Or.inl ⟨_, _, rfl⟩)
        · refine Or.inr (Or.inr ⟨rfl, ?_⟩)
          intro n hn
          exact (List.all_eq_true.1 hguard n hn)
      · exact Or.inl rfl
    · exact Or.inl rfl
  case isFalse => exact Or.inl rfl

lemma smart_and_shorthand (n : String) (h1 : shouldSmartExpand n = true)
    (h2 : isShorthand n = true) : n = "margin" ∨ n = "padding" := by
  have h2' : n = "margin" ∨ n = "padding" ∨ n = "border" ∨ n = "border-width" ∨
      n = "border-style" ∨ n = "border-color" ∨ n = "border-top" ∨
      n = "border-right" ∨ n = "border-bottom" ∨ n = "border-left" ∨
      n = "background" ∨ n = "font" ∨ n = "list-style" ∨ n = "outline" ∨
      n = "flex" ∨ n = "grid" ∨ n = "grid-template" ∨ n = "grid-gap" ∨ n = "gap" ∨
      n = "animation" ∨ n = "transition" ∨ n = "text-decoration" ∨ n = "columns" ∨
      n = "column-rule" ∨ n = "border-radius" ∨ n = "overflow" ∨
      n = "place-content" ∨ n = "place-items" ∨ n = "place-self" := by
    simpa [isShorthand, shorthandNames] using h2
  rcases h2' with rfl | rfl | rfl | rfl | rfl | rfl | rfl | rfl | rfl | rfl | rfl | rfl |
    rfl | rfl | rfl | rfl | rfl | rfl | rfl | rfl | rfl | rfl | rfl | rfl | rfl | rfl |
    rfl | rfl | rfl <;>
    revert h1 <;> decide

lemma boxModelRegular_smart (parts : List String) (pfx v : String)
    (hpfx : pfx = "margin" ∨ pfx = "padding") :
    ∀ q ∈ boxModelRegular parts pfx v, shouldSmartExpand q.name = true := by
  rcases hpfx with rfl | rfl <;>
    rcases parts with _ | ⟨a, _ | ⟨b, _ | ⟨c, _ | ⟨d, _ | ⟨e, r5⟩⟩⟩⟩⟩ <;>
    intro q hq <;>
    fin_cases hq <;> rfl

lemma expandBoxModel_smart (v pfx : String) (hpfx : pfx = "margin" ∨ pfx = "padding") :
    ∀ q ∈ expandBoxModel v pfx, shouldSmartExpand q.name = true := by
  rcases hpfx with rfl | rfl
  · unfold expandBoxModel
    simp only [if_neg (by decide : ¬("margin" : String) = "")]
    rw [if_neg (by decide : ¬ pyStartsWith "margin" "border-" = true)]
    exact boxModelRegular_smart _ _ _ (Or.inl rfl)
  · unfold expandBoxModel
    simp only [if_neg (by decide : ¬("padding" : String) = "")]
    rw [if_neg (by decide : ¬ pyStartsWith "padding" "border-" = true)]
    exact boxModelRegular_smart _ _ _ (Or.inr rfl)

lemma foldl_insert_pred {α : Type} (key : α → String) (val : α → CSSProperty)
    (P : String → Prop) :
    ∀ (l : List α), (∀ a ∈ l, P (key a)) →
    ∀ d : Dict, (∀ k ∈ dictKeys d, P k) →
    ∀ k ∈ dictKeys (l.foldl (fun acc a => dictInsert acc (key a) (val a)) d), P k := by
  intro l
  induction l with
  | nil => intro _ d hd; exact hd
  | cons a rest ih =>
    intro hl d hd
    simp only [List.foldl_cons]
    exact ih (fun a' ha' => hl a' (List.mem_cons_of_mem _ ha'))
      (dictInsert d (key a) (val a))
      (dictInsert_keys_pred P d (key a) (val a) hd (hl a (List.mem_cons_self _ _)))

lemma foldl_insert_keysNodup {α : Type} (key : α → String) (val : α → CSSProperty) :
    ∀ (l : List α) (d : Dict), (dictKeys d).Nodup →
    (dictKeys (l.foldl (fun acc a => dictInsert acc (key a) (val a)) d)).Nodup := by
  intro l
  induction l with
  | nil => intro d hd; exact hd
  | cons a rest ih =>
    intro d hd
    simp only [List.foldl_cons]
    exact ih _ (keysNodup_insert _ _ _ hd)

lemma foldl_insert_coherent {α : Type} (key : α → String) (val : α → CSSProperty)
    (hval : ∀ a, (val a).name = key a) :
    ∀ (l : List α) (d : Dict), nameCoherent d →
    nameCoherent (l.foldl (fun acc a => dictInsert acc (key a) (val a)) d) := by
  intro l
  induction l with
  | nil => intro d hd; exact hd
  | cons a rest ih =>
    intro d hd
    simp only [List.foldl_cons]
    exact ih _ (coherent_insert _ _ _ hd (hval a))

lemma expandStep_facts (state : Dict × List String) (prop : CSSProperty)
    (hsm : shouldSmartExpand prop.name = true)
    (h : (dictKeys state.1).Nodup ∧ nameCoherent state.1 ∧
      ∀ k ∈ dictKeys state.1, shouldSmartExpand k = true) :
    (dictKeys (expandStep state prop).1).Nodup ∧ nameCoherent (expandStep state prop).1 ∧
      ∀ k ∈ dictKeys (expandStep state prop).1, shouldSmartExpand k = true := by
  obtain ⟨h1, h2, h3⟩ := h
  unfold expandStep
  by_cases hsh : isShorthand prop.name = true
  · rw [if_pos hsh]
    rcases smart_and_shorthand prop.name hsm hsh with hm | hm <;>
    · rw [hm]
      simp only [expandShorthand]
      refine ⟨?_, ?_, ?_⟩
      · exact foldl_insert_keysNodup _ _ _ _ h1
      · refine foldl_insert_coherent _ _ ?_ _ _ h2
        intro a
        rfl
      · refine foldl_insert_pred _ _ _ _ ?_ _ h3
        intro a ha
        rw [ite_important_name (prop.important = true) a]
        refine expandBoxModel_smart _ _ ?_ a ha
        · first
          | exact Or.inl rfl
          | exact Or.inr rfl
  · rw [if_neg hsh]
    refine ⟨keysNodup_insert _ _ _ h1, coherent_insert _ _ _ h2 rfl,
      dictInsert_keys_pred _ _ _ _ h3 hsm⟩

lemma expandAll_facts (props : List CSSProperty)
    (hsm : ∀ p ∈ props, shouldSmartExpand p.name = true) :
    (dictKeys (expandAllProperties props).1).Nodup ∧
    nameCoherent (expandAllProperties props).1 ∧
    (∀ k ∈ dictKeys (expandAllProperties props).1, shouldSmartExpand k = true) := by
  unfold expandAllProperties
  refine foldl_preserves (fun st : Dict × List String =>
    (dictKeys st.1).Nodup ∧ nameCoherent st.1 ∧
      ∀ k ∈ dictKeys st.1, shouldSmartExpand k = true)
    expandStep props ([], []) ?_ ?_
  · intro st p hp h
    exact expandStep_facts st p (hsm p hp) h
  · refine ⟨List.nodup_nil, ?_, ?_⟩
    · intro p hp; cases hp
    · intro k hk; cases hk

lemma mergeLonghandsStep_facts (strategy : String)
    (st : Dict × List String × List String) (p : String × CSSProperty)
    (hp : p.2.name = p.1) (hsm : shouldSmartExpand p.1 = true)
    (h : (dictKeys st.1).Nodup ∧ nameCoherent st.1 ∧
      ∀ k ∈ dictKeys st.1, shouldSmartExpand k = true) :
    (dictKeys (mergeLonghandsStep strategy st p).1).Nodup ∧
    nameCoherent (mergeLonghandsStep strategy st p).1 ∧
    ∀ k ∈ dictKeys (mergeLonghandsStep strategy st p).1, shouldSmartExpand k = true := by
  obtain ⟨h1, h2, h3⟩ := h
  unfold mergeLonghandsStep
  dsimp only
  split
  · exact ⟨h1, h2, h3⟩
  · refine ⟨keysNodup_insert _ _ _ h1, coherent_insert _ _ _ h2 ?_,
      dictInsert_keys_pred _ _ _ _ h3 hsm⟩
    rw [applyImportantStrategy_name]
    exact hp

lemma mergeLonghands_facts (src ovr : Dict) (strategy : String)
    (hsrc : (dictKeys src).Nodup ∧ nameCoherent src ∧
      ∀ k ∈ dictKeys src, shouldSmartExpand k = true)
    (hovr : ∀ pr ∈ ovr, pr.2.name = pr.1 ∧ shouldSmartExpand pr.1 = true) :
    (dictKeys (mergeLonghands src ovr strategy).1).Nodup ∧
    nameCoherent (mergeLonghands src ovr strategy).1 ∧
    ∀ k ∈ dictKeys (mergeLonghands src ovr strategy).1, shouldSmartExpand k = true := by
  unfold mergeLonghands
  refine foldl_preserves (fun st : Dict × List String × List String =>
    (dictKeys st.1).Nodup ∧ nameCoherent st.1 ∧
      ∀ k ∈ dictKeys st.1, shouldSmartExpand k = true)
    (mergeLonghandsStep strategy) ovr (src, [], []) ?_ hsrc
  intro st p hp h
  exact mergeLonghandsStep_facts strategy st p (hovr p hp).1 (hovr p hp).2 h

lemma cascadeStep_facts (strategy : String)
    (st : Dict × List String × List String) (q : CSSProperty)
    (hsm : shouldSmartExpand q.name = false)
    (h : (dictKeys st.1).Nodup ∧ nameCoherent st.1 ∧
      ∀ k ∈ dictKeys st.1, shouldSmartExpand k = false) :
    (dictKeys (cascadeStep strategy st q).1).Nodup ∧
    nameCoherent (cascadeStep strategy st q).1 ∧
    ∀ k ∈ dictKeys (cascadeStep strategy st q).1, shouldSmartExpand k = false := by
  obtain ⟨h1, h2, h3⟩ := h
  unfold cascadeStep
  dsimp only
  split
  · exact ⟨h1, h2, h3⟩
  · refine ⟨keysNodup_insert _ _ _ h1, coherent_insert _ _ _ h2 ?_,
      dictInsert_keys_pred _ _ _ _ h3 hsm⟩
    rw [applyImportantStrategy_name]

lemma cascadeLoop_facts (init : Dict) (override : List CSSProperty) (strategy : String)
    (hinit : (dictKeys init).Nodup ∧ nameCoherent init ∧
      ∀ k ∈ dictKeys init, shouldSmartExpand k = false)
    (hovr : ∀ q ∈ override, shouldSmartExpand q.name = false) :
    (dictKeys (cascadeOverrideLoop init override strategy).1).Nodup ∧
    nameCoherent (cascadeOverrideLoop init override strategy).1 ∧
    ∀ k ∈ dictKeys (cascadeOverrideLoop init override strategy).1,
      shouldSmartExpand k = false := by
  unfold cascadeOverrideLoop
  refine foldl_preserves (fun st : Dict × List String × List String =>
    (dictKeys st.1).Nodup ∧ nameCoherent st.1 ∧
      ∀ k ∈ dictKeys st.1, shouldSmartExpand k = false)
    (cascadeStep strategy) override (init, [], []) ?_ hinit
  intro st q hq h
  exact cascadeStep_facts strategy st q (hovr q hq) h

lemma dictValues_names (d : Dict) (hco : nameCoherent d) :
    (dictValues d).map (fun q => q.name) = dictKeys d := by
  unfold dictValues dictKeys
  rw [List.map_map]
  apply List.map_congr_left
  intro p hp
  exact hco p hp

lemma mergeSmartMode_fst (source override : List CSSProperty) (strategy : String) :
    (mergeSmartMode source override strategy).1 =
      optimizeToShorthands (smartMergedLonghands source override strategy) ++
      dictValues (cascadeOverrideLoop
        (((source.partition (fun p => shouldSmartExpand p.name)).2).foldl
          (fun d prop => dictInsert d prop.name prop) [])
        ((override.partition (fun p => shouldSmartExpand p.name)).2) strategy).1 := by
  unfold mergeSmartMode smartMergedLonghands
  dsimp only
  split
  · rfl
  case isFalse h =>
    push_neg at h
    obtain ⟨h1, h2⟩ := h
    rw [h1, h2]
    rfl

lemma merge_smart_fst (source override : List CSSProperty) (istrat : String) :
    (merge "smart" source override istrat).1 =
      (mergeSmartMode source override (validStrategy istrat)).1 := by
  simp [merge]

lemma partition_pos (l : List CSSProperty) :
    ∀ p ∈ (l.partition (fun p => shouldSmartExpand p.name)).1,
      shouldSmartExpand p.name = true := by
  intro p hp
  rw [List.partition_eq_filter_filter] at hp
  simpa using (List.mem_filter.1 hp).2

lemma partition_neg (l : List CSSProperty) :
    ∀ p ∈ (l.partition (fun p => shouldSmartExpand p.name)).2,
      shouldSmartExpand p.name = false := by
  intro p hp
  rw [List.partition_eq_filter_filter] at hp
  simpa using (List.mem_filter.1 hp).2

lemma smartMerged_facts (source override : List CSSProperty) (strategy : String) :
    (dictKeys (smartMergedLonghands source override strategy)).Nodup ∧
    nameCoherent (smartMergedLonghands source override strategy) ∧
    ∀ k ∈ dictKeys (smartMergedLonghands source override strategy),
      shouldSmartExpand k = true := by
  unfold smartMergedLonghands
  have hsrc := expandAll_facts _ (partition_pos source)
  have hovrAll := expandAll_facts _ (partition_pos override)
  refine mergeLonghands_facts _ _ strategy hsrc ?_
  intro pr hpr
  have hco := hovrAll.2.1 pr hpr
  have hk := hovrAll.2.2 pr.1 ?_
  · exact ⟨hco, hk⟩
  · unfold dictKeys
    exact List.mem_map.2 ⟨pr, hpr, rfl⟩

lemma leftover_names_eq (m : Dict) (P : List String) (hco : nameCoherent m) :
    ((m.filter (fun p => p.1 ∉ P)).map (fun p => p.2)).map (fun q => q.name) =
      (m.filter (fun p => p.1 ∉ P)).map (fun p => p.1) := by
  rw [List.map_map]
  apply List.map_congr_left
  intro p hp
  exact hco p (List.mem_of_mem_filter hp)

lemma leftoverKeys_nodup (m : Dict) (P : List String) (h : (dictKeys m).Nodup) :
    ((m.filter (fun p => p.1 ∉ P)).map (fun p => p.1)).Nodup := by
  have hsub : List.Sublist ((m.filter (fun p => p.1 ∉ P)).map (fun p => p.1))
      (m.map (fun p => p.1)) := (List.filter_sublist m).map _
  exact h.sublist hsub

lemma leftoverKeys_mem (m : Dict) (P : List String) (k : String)
    (hk : k ∈ (m.filter (fun p => p.1 ∉ P)).map (fun p => p.1)) :
    k ∈ dictKeys m ∧ k ∉ P := by
  rcases List.mem_map.1 hk with ⟨p, hp, rfl⟩
  have h1 := List.mem_of_mem_filter hp
  have h2 := List.of_mem_filter hp
  simp only [decide_eq_true_eq] at h2
  exact ⟨List.mem_map.2 ⟨p, h1, rfl⟩, h2⟩

lemma group_block_facts (M : Dict) (hco : nameCoherent M) (names : List String)
    (sh : String) (P : List String)
    (hsub : ∀ x ∈ (groupAction M names sh).2, x ∈ P)
    (hshKey : hasKey M sh = false) (hnodup : names.Nodup) :
    ((groupAction M names sh).1.map (fun q => q.name)).Nodup ∧
    (∀ x ∈ (groupAction M names sh).1.map (fun q => q.name), x = sh ∨ x ∈ names) ∧
    (∀ x ∈ (groupAction M names sh).1.map (fun q => q.name),
      x ∉ (M.filter (fun p => p.1 ∉ P)).map (fun p => p.1)) := by
  rcases groupAction_shape M names sh with h | ⟨cv, imp, h⟩ | ⟨h, hkeys⟩
  · rw [h]
    refine ⟨List.nodup_nil, ?_, ?_⟩ <;> (intro x hx; cases hx)
  · rw [h]
    refine ⟨List.nodup_singleton _, ?_, ?_⟩
    · intro x hx
      rcases List.mem_singleton.1 hx with rfl
      exact Or.inl rfl
    · intro x hx hmem
      have hxe : x = sh := List.mem_singleton.1 hx
      subst hxe
      exact (hasKey_false_iff M x).1 hshKey (leftoverKeys_mem M P x hmem).1
  · have hnames : (groupAction M names sh).1.map (fun q => q.name) = names := by
      rw [h]
      dsimp only
      rw [List.map_map]
      conv_rhs => rw [← List.map_id names]
      apply List.map_congr_left
      intro n hn
      exact dictGet_name M n hco (hkeys n hn)
    have hproc : (groupAction M names sh).2 = names := by rw [h]
    rw [hnames]
    refine ⟨hnodup, fun x hx => Or.inr hx, ?_⟩
    intro x hx hmem
    refine (leftoverKeys_mem M P x hmem).2 (hsub x ?_)
    rw [hproc]
    exact hx

lemma assembled_nodup (AN BN LK CK : List String)
    (hAN : AN.Nodup) (hBN : BN.Nodup) (hLK : LK.Nodup) (hCK : CK.Nodup)
    (hAB : ∀ x ∈ AN, x ∉ BN) (hAL : ∀ x ∈ AN, x ∉ LK) (hAC : ∀ x ∈ AN, x ∉ CK)
    (hBL : ∀ x ∈ BN, x ∉ LK) (hBC : ∀ x ∈ BN, x ∉ CK) (hLC : ∀ x ∈ LK, x ∉ CK) :
    ((AN ++ (BN ++ LK)) ++ CK).Nodup := by
  rw [List.nodup_append, List.nodup_append, List.nodup_append]
  refine ⟨⟨hAN, ⟨hBN, hLK, hBL⟩, ?_⟩, hCK, ?_⟩
  · intro a ha hb
    rcases List.mem_append.1 hb with h | h
    · exact hAB a ha h
    · exact hAL a ha h
  · intro a ha hc
    rcases List.mem_append.1 ha with h | h
    · exact hAC a h hc
    · rcases List.mem_append.1 h with h2 | h2
      · exact hBC a h2 hc
      · exact hLC a h2 hc

/-- C2 (amended): under the smart merge, whenever the merged longhand
working set holds no entry under a group's own shorthand name (`margin` /
`padding` — such an entry can only arise from the malformed-shorthand
fallback), the returned property list has at most one property per distinct
name; and whenever a recombinable group was collapsed into its shorthand,
none of that group's longhand names appears individually in the returned
list. -/
theorem claim_C2_unique_names (source override : List CSSProperty)
    (importantStrategy : String)
    (hm : hasKey (smartMergedLonghands source override
      (validStrategy importantStrategy)) "margin" = false)
    (hp : hasKey (smartMergedLonghands source override
      (validStrategy importantStrategy)) "padding" = false) :
    (((merge "smart" source override importantStrategy).1).map
      (fun p => p.name)).Nodup ∧
    (∀ names sh, (names, sh) ∈ shorthandGroups →
      (∃ cv imp, (groupAction (smartMergedLonghands source override
        (validStrategy importantStrategy)) names sh).1 = [⟨sh, cv, imp⟩]) →
      ∀ n ∈ names,
        n ∉ ((merge "smart" source override importantStrategy).1).map
          (fun p => p.name)) := by
  set M := smartMergedLonghands source override (validStrategy importantStrategy)
    with hMdef
  obtain ⟨hMnodup, hMco, hMsmart⟩ :=
    smartMerged_facts source override (validStrategy importantStrategy)
  rw [← hMdef] at hMnodup hMco hMsmart
  have hCDfacts : (dictKeys (((source.partition
        (fun p => shouldSmartExpand p.name)).2).foldl
        (fun d prop => dictInsert d prop.name prop) ([] : Dict))).Nodup ∧
      nameCoherent (((source.partition (fun p => shouldSmartExpand p.name)).2).foldl
        (fun d prop => dictInsert d prop.name prop) ([] : Dict)) ∧
      ∀ k ∈ dictKeys (((source.partition (fun p => shouldSmartExpand p.name)).2).foldl
        (fun d prop => dictInsert d prop.name prop) ([] : Dict)),
        shouldSmartExpand k = false := by
    refine ⟨?_, ?_, ?_⟩
    · exact foldl_insert_keysNodup (fun p : CSSProperty => p.name) (fun p => p) _ _
        List.nodup_nil
    · refine foldl_insert_coherent (fun p : CSSProperty => p.name) (fun p => p)
        (fun a => rfl) _ _ ?_
      intro p hp2
      cases hp2
    · refine foldl_insert_pred (fun p : CSSProperty => p.name) (fun p => p) _ _
        (partition_neg source) _ ?_
      intro k hk
      cases hk
  obtain ⟨hCnodup, hCco, hCsm⟩ := cascadeLoop_facts _
    ((override.partition (fun p => shouldSmartExpand p.name)).2)
    (validStrategy importantStrategy) hCDfacts (partition_neg override)
  set C := (cascadeOverrideLoop (((source.partition
    (fun p => shouldSmartExpand p.name)).2).foldl
    (fun d prop => dictInsert d prop.name prop) ([] : Dict))
    ((override.partition (fun p => shouldSmartExpand p.name)).2)
    (validStrategy importantStrategy)).1 with hCdef
  set P := (groupAction M marginLonghandNames "margin").2 ++
    (groupAction M paddingLonghandNames "padding").2 with hPdef
  have hnames : ((merge "smart" source override importantStrategy).1).map
      (fun p => p.name) =
      ((groupAction M marginLonghandNames "margin").1.map (fun q => q.name) ++
       ((groupAction M paddingLonghandNames "padding").1.map (fun q => q.name) ++
        (M.filter (fun p => p.1 ∉ P)).map (fun p => p.1))) ++ dictKeys C := by
    rw [merge_smart_fst, mergeSmartMode_fst, ← hMdef, ← hCdef, List.map_append,
      optimizeToShorthands_eq, List.map_append, List.map_append,
      leftover_names_eq M P hMco, dictValues_names C hCco, hPdef]
  have hsubA : ∀ x ∈ (groupAction M marginLonghandNames "margin").2, x ∈ P :=
    fun x hx => List.mem_append_left _ hx
  have hsubB : ∀ x ∈ (groupAction M paddingLonghandNames "padding").2, x ∈ P :=
    fun x hx => List.mem_append_right _ hx
  have hAblock := group_block_facts M hMco marginLonghandNames "margin" P hsubA hm
    (by decide)
  have hBblock := group_block_facts M hMco paddingLonghandNames "padding" P hsubB hp
    (by decide)
  constructor
  · rw [hnames]
    refine assembled_nodup _ _ _ _ hAblock.1 hBblock.1
      (leftoverKeys_nodup M P hMnodup) hCnodup ?_ hAblock.2.2 ?_ hBblock.2.2 ?_ ?_
    · -- AN disjoint BN
      intro x hx hxB
      rcases hAblock.2.1 x hx with h | h
      · subst h
        rcases hBblock.2.1 _ hxB with h2 | h2
        · exact absurd h2 (by decide)
        · exact absurd h2 (by decide)
      · have h7 := hBblock.2.1 x hxB
        fin_cases h <;> rcases h7 with h8 | h8 <;> revert h8 <;> decide
    · -- AN disjoint CK
      intro x hx hxC
      have hsm := hCsm x hxC
      rcases hAblock.2.1 x hx with h | h
      · subst h
        exact absurd hsm (by decide)
      · fin_cases h <;> exact absurd hsm (by decide)
    · -- BN disjoint CK
      intro x hx hxC
      have hsm := hCsm x hxC
      rcases hBblock.2.1 x hx with h | h
      · subst h
        exact absurd hsm (by decide)
      · fin_cases h <;> exact absurd hsm (by decide)
    · -- LK disjoint CK
      intro x hxL hxC
      have h1 := (leftoverKeys_mem M P x hxL).1
      have hsm1 := hMsmart x h1
      have hsm2 := hCsm x hxC
      rw [hsm1] at hsm2
      cases hsm2
  · intro names sh hg hcol n hn
    have hgm : (names = marginLonghandNames ∧ sh = "margin") ∨
        (names = paddingLonghandNames ∧ sh = "padding") := by
      simpa [shorthandGroups, Prod.ext_iff] using hg
    obtain ⟨cv, imp, hc⟩ := hcol
    rw [hnames]
    rcases hgm with ⟨rfl, rfl⟩ | ⟨rfl, rfl⟩
    · rcases groupAction_shape M marginLonghandNames "margin" with
        h0 | ⟨cv2, imp2, h2s⟩ | ⟨h3, hkeys⟩
      · rw [h0] at hc
        simp at hc
      · have hA2 : (groupAction M marginLonghandNames "margin").2 =
            marginLonghandNames := by rw [h2s]
        have hA1names : (groupAction M marginLonghandNames "margin").1.map
            (fun q => q.name) = ["margin"] := by rw [h2s]; rfl
        intro hmem
        rcases List.mem_append.1 hmem with h4 | h4
        · rcases List.mem_append.1 h4 with h5 | h5
          · rw [hA1names] at h5
            fin_cases hn <;> exact absurd h5 (by decide)
          · rcases List.mem_append.1 h5 with h6 | h6
            · have h7 := hBblock.2.1 n h6
              fin_cases hn <;> rcases h7 with h8 | h8 <;> revert h8 <;> decide
            · refine (leftoverKeys_mem M P n h6).2 ?_
              rw [hPdef]
              apply List.mem_append_left
              rw [hA2]
              exact hn
        · have hsm2 := hCsm n h4
          fin_cases hn <;> exact absurd hsm2 (by decide)
      · rw [h3] at hc
        have hlen := congrArg List.length hc
        simp [marginLonghandNames] at hlen
    · rcases groupAction_shape M paddingLonghandNames "padding" with
        h0 | ⟨cv2, imp2, h2s⟩ | ⟨h3, hkeys⟩
      · rw [h0] at hc
        simp at hc
      · have hB2 : (groupAction M paddingLonghandNames "padding").2 =
            paddingLonghandNames := by rw [h2s]
        have hB1names : (groupAction M paddingLonghandNames "padding").1.map
            (fun q => q.name) = ["padding"] := by rw [h2s]; rfl
        intro hmem
        rcases List.mem_append.1 hmem with h4 | h4
        · rcases List.mem_append.1 h4 with h5 | h5
          · have h7 := hAblock.2.1 n h5
            fin_cases hn <;> rcases h7 with h8 | h8 <;> revert h8 <;> decide
          · rcases List.mem_append.1 h5 with h6 | h6
            · rw [hB1names] at h6
              fin_cases hn <;> exact absurd h6 (by decide)
            · refine (leftoverKeys_mem M P n h6).2 ?_
              rw [hPdef]
              apply List.mem_append_right
              rw [hB2]
              exact hn
        · have hsm2 := hCsm n h4
          fin_cases hn <;> exact absurd hsm2 (by decide)
      · rw [h3] at hc
        have hlen := congrArg List.length hc
        simp [paddingLonghandNames] at hlen

lemma groupAction_names_sub (m : Dict) (names : List String) (sh : String)
    (hco : nameCoherent m) :
    ∀ x ∈ (groupAction m names sh).1.map (fun q => q.name), x = sh ∨ x ∈ names := by
  rcases groupAction_shape m names sh with h | ⟨cv, imp, h⟩ | ⟨h, hkeys⟩
  · rw [h]
    intro x hx
    cases hx
  · rw [h]
    intro x hx
    simp at hx
    exact Or.inl hx
  · rw [h]
    intro x hx
    rcases List.mem_map.1 hx with ⟨q, hq, rfl⟩
    rcases List.mem_map.1 hq with ⟨n0, hn0, rfl⟩
    right
    rw [dictGet_name m n0 hco (hkeys n0 hn0)]
    exact hn0

/-- C4: for a recombinable group fully present in the working set (with a
non-empty combinable value): when all member longhands carry the same
important flag the group is collapsed into the shorthand carrying that
shared flag and the longhand names disappear from the result; when
importance is mixed the group is not recombined — every member longhand is
emitted individually and no collapsed shorthand for the group appears. -/
theorem claim_C4_importance_gate (m : Dict) (hco : nameCoherent m)
    (names : List String) (sh : String) (hg : (names, sh) ∈ shorthandGroups)
    (hall4 : ∀ n ∈ names, hasKey m n = true)
    (cv : String)
    (hcv : tryCombineToShorthand (names.map fun n => (dictGet m n).value) sh = some cv)
    (hne : cv ≠ "") :
    (((names.all fun n => (dictGet m n).important) = true ∨
      (names.any fun n => (dictGet m n).important) = false) →
      (CSSProperty.mk sh cv (names.all fun n => (dictGet m n).important) ∈
        optimizeToShorthands m ∧
       ∀ n ∈ names, n ∉ (optimizeToShorthands m).map (fun p => p.name))) ∧
    (((names.all fun n => (dictGet m n).important) = false ∧
      (names.any fun n => (dictGet m n).important) = true) →
      ((∀ n ∈ names, dictGet m n ∈ optimizeToShorthands m) ∧
       (hasKey m sh = false →
         sh ∉ (optimizeToShorthands m).map (fun p => p.name)))) := by
  have hgm : (names = marginLonghandNames ∧ sh = "margin") ∨
      (names = paddingLonghandNames ∧ sh = "padding") := by
    simpa [shorthandGroups, Prod.ext_iff] using hg
  have hoptnames : (optimizeToShorthands m).map (fun p => p.name) =
      (groupAction m marginLonghandNames "margin").1.map (fun q => q.name) ++
      ((groupAction m paddingLonghandNames "padding").1.map (fun q => q.name) ++
       (m.filter (fun p => p.1 ∉ (groupAction m marginLonghandNames "margin").2 ++
         (groupAction m paddingLonghandNames "padding").2)).map (fun p => p.1)) := by
    rw [optimizeToShorthands_eq m, List.map_append, List.map_append,
      leftover_names_eq m _ hco]
  constructor
  · intro huni
    have hGA : groupAction m names sh =
        ([⟨sh, cv, names.all fun n => (dictGet m n).important⟩], names) := by
      unfold groupAction
      rw [if_pos (List.all_eq_true.2 hall4)]
      simp only [hcv]
      rw [if_pos hne, if_pos ?_]
      rcases huni with h | h
      · exact Or.inl h
      · exact Or.inr (by simp [h])
    refine ⟨?_, ?_⟩
    · rw [optimizeToShorthands_eq m]
      rcases hgm with ⟨rfl, rfl⟩ | ⟨rfl, rfl⟩
      · apply List.mem_append_left
        rw [hGA]
        exact List.mem_singleton_self _
      · apply List.mem_append_right
        apply List.mem_append_left
        rw [hGA]
        exact List.mem_singleton_self _
    · intro n hn
      rw [hoptnames]
      intro hmem
      rcases hgm with ⟨rfl, rfl⟩ | ⟨rfl, rfl⟩
      · rcases List.mem_append.1 hmem with h4 | h4
        · rw [hGA] at h4
          simp at h4
          fin_cases hn <;> revert h4 <;> decide
        · rcases List.mem_append.1 h4 with h5 | h5
          · have h7 := groupAction_names_sub m paddingLonghandNames "padding" hco n h5
            fin_cases hn <;> rcases h7 with h8 | h8 <;> revert h8 <;> decide
          · refine (leftoverKeys_mem m _ n h5).2 ?_
            apply List.mem_append_left
            rw [hGA]
            exact hn
      · rcases List.mem_append.1 hmem with h4 | h4
        · have h7 := groupAction_names_sub m marginLonghandNames "margin" hco n h4
          fin_cases hn <;> rcases h7 with h8 | h8 <;> revert h8 <;> decide
        · rcases List.mem_append.1 h4 with h5 | h5
          · rw [hGA] at h5
            simp at h5
            fin_cases hn <;> revert h5 <;> decide
          · refine (leftoverKeys_mem m _ n h5).2 ?_
            apply List.mem_append_right
            rw [hGA]
            exact hn
  · intro hmix
    have hGA : groupAction m names sh = (names.map (fun n => dictGet m n), names) := by
      unfold groupAction
      rw [if_pos (List.all_eq_true.2 hall4)]
      simp only [hcv]
      rw [if_pos hne, if_neg ?_]
      rintro (h | h)
      · rw [hmix.1] at h
        cases h
      · exact h hmix.2
    refine ⟨?_, ?_⟩
    · intro n hn
      rw [optimizeToShorthands_eq m]
      rcases hgm with ⟨rfl, rfl⟩ | ⟨rfl, rfl⟩
      · apply List.mem_append_left
        rw [hGA]
        exact List.mem_map.2 ⟨n, hn, rfl⟩
      · apply List.mem_append_right
        apply List.mem_append_left
        rw [hGA]
        exact List.mem_map.2 ⟨n, hn, rfl⟩
    · intro hshkey
      rw [hoptnames]
      intro hmem
      rcases hgm with ⟨rfl, rfl⟩ | ⟨rfl, rfl⟩
      · have hAN : (groupAction m marginLonghandNames "margin").1.map
            (fun q => q.name) = marginLonghandNames := by
          rw [hGA]
          show (marginLonghandNames.map (fun n => dictGet m n)).map
            (fun q => q.name) = marginLonghandNames
          rw [List.map_map]
          conv_rhs => rw [← List.map_id marginLonghandNames]
          apply List.map_congr_left
          intro n0 hn0
          exact dictGet_name m n0 hco (hall4 n0 hn0)
        rcases List.mem_append.1 hmem with h4 | h4
        · rw [hAN] at h4
          revert h4
          decide
        · rcases List.mem_append.1 h4 with h5 | h5
          · have h7 := groupAction_names_sub m paddingLonghandNames "padding" hco _ h5
            rcases h7 with h8 | h8 <;> revert h8 <;> decide
          · exact absurd ((hasKey_iff m "margin").2 (leftoverKeys_mem m _ _ h5).1)
              (by simp [hshkey])
      · have hBN : (groupAction m paddingLonghandNames "padding").1.map
            (fun q => q.name) = paddingLonghandNames := by
          rw [hGA]
          show (paddingLonghandNames.map (fun n => dictGet m n)).map
            (fun q => q.name) = paddingLonghandNames
          rw [List.map_map]
          conv_rhs => rw [← List.map_id paddingLonghandNames]
          apply List.map_congr_left
          intro n0 hn0
          exact dictGet_name m n0 hco (hall4 n0 hn0)
        rcases List.mem_append.1 hmem with h4 | h4
        · have h7 := groupAction_names_sub m marginLonghandNames "margin" hco _ h4
          rcases h7 with h8 | h8 <;> revert h8 <;> decide
        · rcases List.mem_append.1 h4 with h5 | h5
          · rw [hBN] at h5
            revert h5
            decide
          · exact absurd ((hasKey_iff m "padding").2 (leftoverKeys_mem m _ _ h5).1)
              (by simp [hshkey])

/-- C2 counterexample: a malformed `margin` shorthand (five tokens) is kept
unexpanded under the key `margin` and coexists with the shorthand
recombined from the four margin longhands, so the returned list carries two
properties named `margin`. -/
theorem claim_C2_counterexample :
    ((merge "smart"
      [⟨"margin", "1px 2px 3px 4px 5px", false⟩, ⟨"margin-top", "1px", false⟩,
       ⟨"margin-right", "2px", false⟩, ⟨"margin-bottom", "3px", false⟩,
       ⟨"margin-left", "4px", false⟩] [] "match").1.map (fun p => p.name)) =
      ["margin", "margin"] ∧
    ¬ ((merge "smart"
      [⟨"margin", "1px 2px 3px 4px 5px", false⟩, ⟨"margin-top", "1px", false⟩,
       ⟨"margin-right", "2px", false⟩, ⟨"margin-bottom", "3px", false⟩,
       ⟨"margin-left", "4px", false⟩] [] "match").1.map (fun p => p.name)).Nodup := by
  decide

/-- Witness for C2 (amended) at a concrete merge with a recombined margin
group plus a cascade property. -/
theorem claim_C2_witness :
    (((merge "smart" [⟨"margin", "1px 2px", false⟩, ⟨"color", "red", true⟩]
      [⟨"margin-top", "9px", false⟩] "match").1).map (fun p => p.name)).Nodup :=
  (claim_C2_unique_names [⟨"margin", "1px 2px", false⟩, ⟨"color", "red", true⟩]
    [⟨"margin-top", "9px", false⟩] "match" (by decide) (by decide)).1

/-- Witness for C4 at a mixed-importance margin group: the four longhands
are emitted individually and no `margin` shorthand appears. -/
theorem claim_C4_witness :
    (∀ n ∈ marginLonghandNames,
      dictGet [("margin-top", ⟨"margin-top", "1px", true⟩),
        ("margin-right", ⟨"margin-right", "2px", false⟩),
        ("margin-bottom", ⟨"margin-bottom", "3px", false⟩),
        ("margin-left", ⟨"margin-left", "4px", false⟩)] n ∈
      optimizeToShorthands [("margin-top", ⟨"margin-top", "1px", true⟩),
        ("margin-right", ⟨"margin-right", "2px", false⟩),
        ("margin-bottom", ⟨"margin-bottom", "3px", false⟩),
        ("margin-left", ⟨"margin-left", "4px", false⟩)]) ∧
    "margin" ∉ (optimizeToShorthands [("margin-top", ⟨"margin-top", "1px", true⟩),
        ("margin-right", ⟨"margin-right", "2px", false⟩),
        ("margin-bottom", ⟨"margin-bottom", "3px", false⟩),
        ("margin-left", ⟨"margin-left", "4px", false⟩)]).map (fun p => p.name) := by
  have h := (claim_C4_importance_gate
    [("margin-top", ⟨"margin-top", "1px", true⟩),
     ("margin-right", ⟨"margin-right", "2px", false⟩),
     ("margin-bottom", ⟨"margin-bottom", "3px", false⟩),
     ("margin-left", ⟨"margin-left", "4px", false⟩)]
    (by intro p hp
        simp only [List.mem_cons, List.not_mem_nil, or_false] at hp
        rcases hp with rfl | rfl | rfl | rfl <;> rfl)
    marginLonghandNames "margin" (by decide)
    (by decide) "1px 2px 3px 4px" (by decide) (by decide)).2 ⟨by decide, by decide⟩
  exact ⟨h.1, h.2 (by decide)⟩

end CSScade
